import Mathlib

/-!
Verification development for the deathquake-go repository.

The Go sources under `models/` (player.go, game.go) and `parser/`
(parser.go) are embedded shallowly:

* Go `string` is modelled as `List Char` (`GoStr`).  Go compares strings
  byte-wise; for the ASCII data handled here this agrees with the
  code-point-wise order `lexLt` used below.
* Go `int` is modelled as `ℤ`.  The counters involved never approach
  2^63, so wrap-around is immaterial and is not modelled.
* Go `float64` is modelled by `GoFloat`: an exact rational together with
  the three IEEE-754 special values `+Inf`, `-Inf`, `NaN`.  The
  arithmetic the program performs on floats (integer-to-float division,
  addition, subtraction, multiplication/division by the positive
  constants 14, 0.5 and 0.33, comparisons, `math.Floor`, `math.Round`,
  the `max` builtin) is defined on `GoFloat` following IEEE-754
  semantics.  Rational arithmetic stands in for binary floating point;
  at every concrete input evaluated in this file the double-precision
  results coincide with the exact rational ones.
* Go `map[string]*Player` is modelled as a `List Player` keyed by
  `Name`; map iteration order is unspecified in Go and every iteration
  performed by the program is order-insensitive, while `sort.Slice`
  (an unstable sort behind an arbitrary comparator) is modelled by an
  insertion sort over the same comparator.
* A function that can panic (out-of-range slice indexing) is modelled
  with `Option`, `none` standing for the panic.
-/


/-!
Mathlib marks the field operations on `ℚ` irreducible, which blocks
kernel evaluation (`decide`) on concrete inputs.  The embedding
therefore computes with the following kernel-evaluable synonyms, each
proved equal to the corresponding field operation below
(`qadd_eq` and friends).
-/

/-- Kernel-evaluable addition on `ℚ`. -/
def qadd (a b : ℚ) : ℚ := mkRat (a.num * (b.den : ℤ) + b.num * (a.den : ℤ)) (a.den * b.den)

/-- Kernel-evaluable negation on `ℚ`. -/
def qneg (a : ℚ) : ℚ := mkRat (-a.num) a.den

/-- Kernel-evaluable subtraction on `ℚ`. -/
def qsub (a b : ℚ) : ℚ := qadd a (qneg b)

/-- Kernel-evaluable multiplication on `ℚ`. -/
def qmul (a b : ℚ) : ℚ := mkRat (a.num * b.num) (a.den * b.den)

/-- Kernel-evaluable division on `ℚ`. -/
def qdiv (a b : ℚ) : ℚ := Rat.divInt (a.num * (b.den : ℤ)) ((a.den : ℤ) * b.num)

/-- Kernel-evaluable binary maximum on `ℚ`. -/
def qmax (a b : ℚ) : ℚ := if Rat.blt a b then b else a

/-- Kernel-evaluable absolute value on `ℚ`. -/
def qabs (a : ℚ) : ℚ := if Rat.blt a 0 then qneg a else a

/-- Model of a Go `float64` value: an exact rational or one of the
IEEE-754 special values. -/
inductive GoFloat where
  | fin (q : ℚ)
  | pinf
  | ninf
  | nan
deriving DecidableEq, Repr

namespace GoFloat

/-- IEEE-754 addition (`+` on Go float64). -/
def add : GoFloat → GoFloat → GoFloat
  | nan, _ => nan
  | _, nan => nan
  | fin a, fin b => fin (qadd a b)
  | fin _, pinf => pinf
  | pinf, fin _ => pinf
  | fin _, ninf => ninf
  | ninf, fin _ => ninf
  | pinf, pinf => pinf
  | ninf, ninf => ninf
  | pinf, ninf => nan
  | ninf, pinf => nan

/-- IEEE-754 subtraction (`-` on Go float64). -/
def sub : GoFloat → GoFloat → GoFloat
  | nan, _ => nan
  | _, nan => nan
  | fin a, fin b => fin (qsub a b)
  | fin _, pinf => ninf
  | pinf, fin _ => pinf
  | fin _, ninf => pinf
  | ninf, fin _ => ninf
  | pinf, pinf => nan
  | ninf, ninf => nan
  | pinf, ninf => pinf
  | ninf, pinf => ninf

/-- Multiplication by a positive finite rational constant (the program
only multiplies floats by the literals `14` and `0.33`). -/
def mulC (x : GoFloat) (c : ℚ) : GoFloat :=
  match x with
  | fin a => fin (qmul a c)
  | pinf => pinf
  | ninf => ninf
  | nan => nan

/-- Division by a positive finite rational constant (the program only
divides floats by the literal `0.5`). -/
def divC (x : GoFloat) (c : ℚ) : GoFloat :=
  match x with
  | fin a => fin (qdiv a c)
  | pinf => pinf
  | ninf => ninf
  | nan => nan

/-- Go `>` on float64: `NaN` compares false with everything. -/
def gt : GoFloat → GoFloat → Bool
  | nan, _ => false
  | _, nan => false
  | fin a, fin b => decide (a > b)
  | fin _, pinf => false
  | pinf, fin _ => true
  | fin _, ninf => true
  | ninf, fin _ => false
  | pinf, pinf => false
  | ninf, ninf => false
  | pinf, ninf => true
  | ninf, pinf => false

/-- Go `!=` on float64: `NaN` is unequal to everything, itself included. -/
def ne : GoFloat → GoFloat → Bool
  | nan, _ => true
  | _, nan => true
  | fin a, fin b => decide (a ≠ b)
  | fin _, pinf => true
  | pinf, fin _ => true
  | fin _, ninf => true
  | ninf, fin _ => true
  | pinf, pinf => false
  | ninf, ninf => false
  | pinf, ninf => true
  | ninf, pinf => true

/-- The Go builtin `max` on float64: `NaN` propagates, otherwise the
larger value. -/
def gmax : GoFloat → GoFloat → GoFloat
  | nan, _ => nan
  | _, nan => nan
  | fin a, fin b => fin (qmax a b)
  | fin _, pinf => pinf
  | pinf, fin _ => pinf
  | fin a, ninf => fin a
  | ninf, fin b => fin b
  | pinf, pinf => pinf
  | ninf, ninf => ninf
  | pinf, ninf => pinf
  | ninf, pinf => pinf

/-- `math.Floor`. -/
def mathFloor : GoFloat → GoFloat
  | fin q => fin ((Rat.floor q : ℤ) : ℚ)
  | pinf => pinf
  | ninf => ninf
  | nan => nan

/-- `math.Round`: rounds half away from zero. -/
def mathRound : GoFloat → GoFloat
  | fin q => fin ((if 0 ≤ q then Rat.floor (qadd q (mkRat 1 2))
      else -(Rat.floor (qadd (qneg q) (mkRat 1 2))) : ℤ) : ℚ)
  | pinf => pinf
  | ninf => ninf
  | nan => nan

/-- The Go conversion `int(x)`: truncation toward zero for finite
values; for the special values the amd64 behaviour (the conversion
yields the minimum int64) is used.  The program only converts values
that `math.Floor` or `math.Round` already made integral. -/
def toGoInt : GoFloat → ℤ
  | fin q => if 0 ≤ q then Rat.floor q else Rat.ceil q
  | pinf => -(2 ^ 63)
  | ninf => -(2 ^ 63)
  | nan => -(2 ^ 63)

/-- True exactly on non-special values. -/
def isFinite : GoFloat → Bool
  | fin _ => true
  | _ => false

end GoFloat

/-- Go strings, modelled as their character sequences. -/
abbrev GoStr := List Char

/-- Byte-wise (here: code-point-wise) strict lexicographic order, the
model of Go's `<` on strings; `a > b` in Go is `lexLt b a`. -/
def lexLt : GoStr → GoStr → Bool
  | [], [] => false
  | [], _ :: _ => true
  | _ :: _, [] => false
  | a :: as, b :: bs =>
    if a.toNat < b.toNat then true
    else if b.toNat < a.toNat then false
    else lexLt as bs

/-- Decimal digits of a natural number, with explicit fuel so that the
definition is structurally recursive and kernel-evaluable.  The fuel
`n + 1` always suffices since `n / 10 < n` for `n ≥ 10`. -/
def natDigitsAux : Nat → Nat → List Char
  | 0, _ => []
  | fuel + 1, n =>
    if n < 10 then [Char.ofNat (48 + n)]
    else natDigitsAux fuel (n / 10) ++ [Char.ofNat (48 + n % 10)]

/-- Decimal digits of a natural number (most significant first). -/
def natDigits (n : Nat) : List Char := natDigitsAux (n + 1) n

/-- Rendering of a Go `int` with `%d`. -/
def intChars (i : ℤ) : GoStr :=
  if i < 0 then '-' :: natDigits i.natAbs else natDigits i.natAbs

/-- Round a nonnegative rational to the nearest integer, ties to even
(the rounding `fmt` applies when formatting with a fixed precision). -/
def roundHalfEven (q : ℚ) : ℤ :=
  let f := Rat.floor q
  let r := qsub q ((f : ℤ) : ℚ)
  if r < mkRat 1 2 then f
  else if mkRat 1 2 < r then f + 1
  else if f % 2 = 0 then f else f + 1

/-- Rendering of a Go `float64` with `%.2f`. -/
def formatF2 : GoFloat → GoStr
  | GoFloat.fin q =>
    let n := roundHalfEven (qmul (qabs q) 100)
    let sign : GoStr := if q < 0 then ['-'] else []
    let cents := n.natAbs % 100
    sign ++ natDigits (n.natAbs / 100) ++
      '.' :: Char.ofNat (48 + cents / 10) :: [Char.ofNat (48 + cents % 10)]
  | GoFloat.pinf => ['+', 'I', 'n', 'f']
  | GoFloat.ninf => ['-', 'I', 'n', 'f']
  | GoFloat.nan => ['N', 'a', 'N']

/-- Embedding of `models.Player` (player.go).  Field defaults are the Go
zero values a freshly allocated `&Player{Name: ...}` carries. -/
structure Player where
  Name : GoStr
  Rank : ℤ := 0
  PrevRank : ℤ := 0
  Score : GoFloat := .fin 0
  Diff : GoFloat := .fin 0
  Score14 : GoStr := []
  Diff14 : GoStr := []
  Kills : ℤ := 0
  Deaths : ℤ := 0
  KillDeathRatio : GoFloat := .fin 0
  RoundKills : ℤ := 0
  RoundDeaths : ℤ := 0
  RocketKills : ℤ := 0
  RoundRocketKills : ℤ := 0
  RailgunKills : ℤ := 0
  RoundRailgunKills : ℤ := 0
  GauntletKills : ℤ := 0
  RoundGauntletKills : ℤ := 0
  SuicideDeaths : ℤ := 0
  RoundSuicideDeaths : ℤ := 0
  KillingStreak : ℤ := 0
  RoundKillingStreak : ℤ := 0
  RoundCurrentKillingStreak : ℤ := 0
  IsDrinkingCider : Bool := false
  IsIgnored : Bool := false
deriving DecidableEq, Repr

/-- `formatCiders` (player.go): `ciders := (score / 0.5) * 0.33`,
rendered `%.2f` with the plural decided on the cider count. -/
def formatCiders (score : GoFloat) : GoStr :=
  let ciders := (score.divC (mkRat 1 2)).mulC (mkRat 33 100)
  if ciders.gt (.fin 1) then formatF2 ciders ++ " ciders".toList
  else formatF2 ciders ++ " cider".toList

/-- `formatBeers` (player.go). -/
def formatBeers (count : ℤ) : GoStr :=
  if count = 1 then "1 beer".toList
  else intChars count ++ " beers".toList

/-- `formatSips` (player.go). -/
def formatSips (count : ℤ) : GoStr :=
  if count = 1 then "1 sip".toList
  else intChars count ++ " sips".toList

/-- The rendering part of `formatBeersAndSips` (player.go), from the
`if sips == 14` statement downward, as a function of the computed beer
and sip counts. -/
def renderBeersAndSips (beers0 sips0 : ℤ) : GoStr :=
  let beers := if sips0 = 14 then beers0 + 1 else beers0
  let sips := if sips0 = 14 then 0 else sips0
  if beers ≤ 0 ∧ sips = 0 then []
  else if beers < 0 then []
  else if beers = 0 then formatSips sips
  else if sips = 0 then formatBeers beers
  else formatBeers beers ++ " & ".toList ++ formatSips sips

/-- `formatBeersAndSips` (player.go): `beers := int(math.Floor(score))`,
`sips := int(math.Round((score - float64(beers)) * 14))`, then the
rollover and rendering of `renderBeersAndSips`. -/
def formatBeersAndSips (score : GoFloat) : GoStr :=
  let beers := (score.mathFloor).toGoInt
  let sips := ((score.sub (.fin (beers : ℚ))).mulC 14).mathRound.toGoInt
  renderBeersAndSips beers sips

/-- `calculateScore14` (player.go). -/
def calculateScore14 (score : GoFloat) (drinkingCider : Bool) : GoStr :=
  if drinkingCider then formatCiders score else formatBeersAndSips score

/-- Go float division of two values obtained from `int` casts
(`float64(a) / float64(b)`). -/
def goDivInt (a b : ℤ) : GoFloat :=
  if b ≠ 0 then .fin (Rat.divInt a b)
  else if a = 0 then .nan
  else if 0 < a then .pinf
  else .ninf

namespace Player

/-- `Player.RecalculateKillDeathRatio` (player.go). -/
def RecalculateKillDeathRatio (p : Player) : Player :=
  if p.IsIgnored then p
  else if p.Deaths = 0 then { p with KillDeathRatio := .fin (p.Kills : ℚ) }
  else { p with KillDeathRatio := goDivInt p.Kills (p.Deaths - p.SuicideDeaths) }

/-- `Player.IncrementKills` (player.go). -/
def IncrementKills (p : Player) : Player :=
  if p.IsIgnored then p
  else
    let rk := p.RoundKills + 1
    let cur := p.RoundCurrentKillingStreak + 1
    { p with RoundKills := rk, RoundCurrentKillingStreak := cur,
             RoundKillingStreak := max p.RoundKillingStreak cur }

/-- `Player.SubtractKills` (player.go). -/
def SubtractKills (p : Player) : Player :=
  if p.IsIgnored then p
  else { p with RoundCurrentKillingStreak := 0, RoundKills := p.RoundKills - 1 }

/-- `Player.IncrementRocketKills` (player.go). -/
def IncrementRocketKills (p : Player) : Player :=
  if p.IsIgnored then p
  else { p with RoundRocketKills := p.RoundRocketKills + 1 }

/-- `Player.IncrementRailgunKills` (player.go). -/
def IncrementRailgunKills (p : Player) : Player :=
  if p.IsIgnored then p
  else { p with RoundRailgunKills := p.RoundRailgunKills + 1 }

/-- `Player.IncrementGauntletKills` (player.go). -/
def IncrementGauntletKills (p : Player) : Player :=
  if p.IsIgnored then p
  else { p with RoundGauntletKills := p.RoundGauntletKills + 1 }

/-- `Player.IncrementDeaths` (player.go). -/
def IncrementDeaths (p : Player) : Player :=
  if p.IsIgnored then p
  else { p with RoundCurrentKillingStreak := 0, RoundDeaths := p.RoundDeaths + 1 }

/-- `Player.IncrementSuicideDeaths` (player.go). -/
def IncrementSuicideDeaths (p : Player) : Player :=
  if p.IsIgnored then p
  else { p with RoundCurrentKillingStreak := 0,
                RoundSuicideDeaths := p.RoundSuicideDeaths + 1 }

/-- `Player.SaveRound` (player.go): score update with the round delta,
formatted-string refresh, fold of the round counters into the
cumulative ones, reset of six round counters, and kill-death-ratio
recomputation.  Note the two streak-related round fields are not
reset here, exactly as in the source. -/
def SaveRound (p : Player) (fragLimit : ℤ) : Player :=
  if p.IsIgnored then p
  else
    let oldScore := p.Score
    let diff := goDivInt p.RoundKills fragLimit
    let score := p.Score.add diff
    { p with
      Score := score
      Score14 := calculateScore14 score p.IsDrinkingCider
      Diff := diff
      Diff14 := calculateScore14 (score.sub oldScore) p.IsDrinkingCider
      Kills := p.Kills + p.RoundKills
      Deaths := p.Deaths + p.RoundDeaths
      RocketKills := p.RocketKills + p.RoundRocketKills
      RailgunKills := p.RailgunKills + p.RoundRailgunKills
      GauntletKills := p.GauntletKills + p.RoundGauntletKills
      SuicideDeaths := p.SuicideDeaths + p.RoundSuicideDeaths
      KillingStreak := max p.KillingStreak p.RoundKillingStreak
      RoundKills := 0
      RoundDeaths := 0
      RoundRocketKills := 0
      RoundRailgunKills := 0
      RoundGauntletKills := 0
      RoundSuicideDeaths := 0 }.RecalculateKillDeathRatio

/-- `Player.DiscardRound` (player.go): clears seven round counters (the
current-streak field is not among them, exactly as in the source) and
recomputes the kill-death ratio. -/
def DiscardRound (p : Player) : Player :=
  if p.IsIgnored then p
  else
    { p with
      RoundKills := 0
      RoundDeaths := 0
      RoundRocketKills := 0
      RoundRailgunKills := 0
      RoundGauntletKills := 0
      RoundSuicideDeaths := 0
      RoundKillingStreak := 0 }.RecalculateKillDeathRatio

/-- `Player.SetDrinkingCider` (player.go). -/
def SetDrinkingCider (p : Player) (b : Bool) : Player :=
  { p with IsDrinkingCider := b }

/-- `Player.SetIsIgnored` (player.go). -/
def SetIsIgnored (p : Player) (b : Bool) : Player :=
  { p with IsIgnored := b }

/-- `Player.SetRank` (player.go): shifts the current rank into
`PrevRank`; a no-op for ignored players. -/
def SetRank (p : Player) (rank : ℤ) : Player :=
  if p.IsIgnored then p
  else { p with PrevRank := p.Rank, Rank := rank }

end Player

/-- Embedding of `config.Config` (config.go), named `GoConfig` here so
that it stays referable inside `namespace Game` (where `Config` denotes
the field accessor).  Loading from JSON is out of scope; the three
collections are taken as given. -/
structure GoConfig where
  IgnoredPlayers : List GoStr := []
  DrinkingCiderPlayers : List GoStr := []
  SkipGames : List GoStr := []
deriving DecidableEq, Repr

/-- Embedding of `models.Game` (game.go).  The Go `map[string]*Player`
is modelled as a list keyed by `Name`. -/
structure Game where
  Players : List Player := []
  Config : GoConfig := {}
  CurentGameId : GoStr := []
  IsWarmup : Bool := false
  CurrentMapName : GoStr := []
  MapChanges : ℤ := 0
  MaxKills : ℤ := 0
  MaxDeaths : ℤ := 0
  MaxKillDeathRatio : GoFloat := .fin 0
  MaxKillingStreak : ℤ := 0
  MaxRocketKills : ℤ := 0
  MaxRailgunKills : ℤ := 0
  MaxGauntletKills : ℤ := 0
  MaxSuicides : ℤ := 0
deriving DecidableEq, Repr

/-- Insertion of an element into a list sorted by the Boolean
precedence `le`. -/
def insertLe {α : Type} (le : α → α → Bool) (a : α) : List α → List α
  | [] => [a]
  | b :: bs => if le a b then a :: b :: bs else b :: insertLe le a bs

/-- Insertion sort by the Boolean precedence `le`: the model of
`sort.Slice` with the comparator `less`, called as
`sortLe (fun a b => !less b a)`. -/
def sortLe {α : Type} (le : α → α → Bool) : List α → List α
  | [] => []
  | a :: as => insertLe le a (sortLe le as)

/-- Modification of the (first) entry of the ledger carrying the given
name — the model of mutating through the `*Player` held by the map. -/
def updateNamed (name : GoStr) (f : Player → Player) : List Player → List Player
  | [] => []
  | p :: ps => if p.Name = name then f p :: ps else p :: updateNamed name f ps

namespace Game

/-- `NewGame` (game.go). -/
def NewGame (cfg : GoConfig) : Game :=
  { Players := [], Config := cfg, IsWarmup := true,
    CurentGameId := [], CurrentMapName := [], MapChanges := 0 }

/-- `Game.GetOrCreatePlayer` (game.go): returns the resolved player and
the (possibly extended) game. -/
def GetOrCreatePlayer (g : Game) (playerName : GoStr) : Player × Game :=
  match g.Players.find? (fun p => p.Name = playerName) with
  | some p => (p, g)
  | none =>
    let newPlayer : Player := { Name := playerName }
    let newPlayer :=
      if g.Config.IgnoredPlayers.contains playerName
      then newPlayer.SetIsIgnored true else newPlayer
    let newPlayer :=
      if g.Config.DrinkingCiderPlayers.contains playerName
      then newPlayer.SetDrinkingCider true else newPlayer
    (newPlayer, { g with Players := g.Players ++ [newPlayer] })

/-- The comparator of `Game.GetSortedPlayers` (game.go): ranked before
unranked, then ascending rank, then descending kills, then descending
name. -/
def uiLess (player1 player2 : Player) : Bool :=
  if player1.Rank = 0 then false
  else if player2.Rank = 0 then true
  else if player1.Rank ≠ player2.Rank then decide (player1.Rank < player2.Rank)
  else if player1.Kills ≠ player2.Kills then decide (player1.Kills > player2.Kills)
  else lexLt player2.Name player1.Name

/-- `Game.GetSortedPlayers` (game.go): the non-ignored players, sorted
by `uiLess`. -/
def GetSortedPlayers (g : Game) : List Player :=
  sortLe (fun a b => !uiLess b a)
    (g.Players.filter (fun p => !p.IsIgnored))

/-- `Game.GetFragLimit` (game.go): the loop
`fragLimit = max(p.RoundKills, fragLimit)` over the ledger, with the
accumulator starting at the zero value of `int`. -/
def GetFragLimit (g : Game) : ℤ :=
  g.Players.foldl (fun fragLimit p => max p.RoundKills fragLimit) 0

/-- `Game.NewMap` (game.go).  `md5hex` abstracts the
`md5`-and-hex-encode hashing of the timestamp; every property proved
below holds for an arbitrary hash function.  Note that `DiscardRound`
runs for every player even when the map name is unchanged, exactly as
in the source. -/
def NewMap (md5hex : GoStr → GoStr) (g : Game)
    (newMapName timestamp : GoStr) : Game :=
  let g :=
    if newMapName ≠ g.CurrentMapName then
      let mapChanges := g.MapChanges + 1
      { g with
        CurrentMapName := newMapName
        MapChanges := mapChanges
        CurentGameId := md5hex timestamp
        IsWarmup := if mapChanges > 1 then false else g.IsWarmup }
    else g
  { g with Players := g.Players.map Player.DiscardRound }

/-- `Game.RecordKill` (game.go). -/
def RecordKill (g : Game) (attackerName victimName weapon : GoStr) : Game :=
  if g.IsWarmup then g
  else
    let (attacker, g) := g.GetOrCreatePlayer attackerName
    let (victim, g) := g.GetOrCreatePlayer victimName
    if attacker.Name = "<world>".toList ∨ attacker.Name = victim.Name then
      let players := updateNamed victim.Name
        (fun v => v.SubtractKills.IncrementDeaths.IncrementSuicideDeaths) g.Players
      { g with Players := players }
    else
      let players := updateNamed attacker.Name Player.IncrementKills g.Players
      let players := updateNamed victim.Name Player.IncrementDeaths players
      let players :=
        if weapon = "MOD_ROCKET".toList ∨ weapon = "MOD_ROCKET_SPLASH".toList then
          updateNamed attacker.Name Player.IncrementRocketKills players
        else if weapon = "MOD_RAILGUN".toList then
          updateNamed attacker.Name Player.IncrementRailgunKills players
        else if weapon = "MOD_GAUNTLET".toList then
          updateNamed attacker.Name Player.IncrementGauntletKills players
        else players
      { g with Players := players }

/-- The comparator of the `sort.Slice` call inside `Game.Save`
(game.go): score descending; on a tie, if the (shared) score is zero
the comparison falls through to the name, otherwise kills descending
and then name descending. -/
def saveLess (player1 player2 : Player) : Bool :=
  if player1.Score.ne player2.Score then player1.Score.gt player2.Score
  else if player1.Score = .fin 0 then lexLt player2.Name player1.Name
  else if player1.Kills ≠ player2.Kills then decide (player1.Kills > player2.Kills)
  else lexLt player2.Name player1.Name

/-- The rank-assignment loop of `Game.Save`: position `i` of the sorted
slice receives rank `i+1` via `SetRank` (a no-op on ignored players). -/
def assignRanks : ℕ → List Player → List Player
  | _, [] => []
  | i, p :: ps => p.SetRank (i + 1) :: assignRanks (i + 1) ps

/-- The body of the maxima loop of `Game.Save`, for one player. -/
def foldMaxima (g : Game) (p : Player) : Game :=
  if p.IsIgnored then g
  else
    { g with
      MaxKills := max g.MaxKills p.Kills
      MaxDeaths := max g.MaxDeaths p.Deaths
      MaxKillDeathRatio := g.MaxKillDeathRatio.gmax p.KillDeathRatio
      MaxRocketKills := max g.MaxRocketKills p.RocketKills
      MaxRailgunKills := max g.MaxRailgunKills p.RailgunKills
      MaxGauntletKills := max g.MaxGauntletKills p.GauntletKills
      MaxSuicides := max g.MaxSuicides p.SuicideDeaths
      MaxKillingStreak := max g.MaxKillingStreak p.KillingStreak }

/-- `Game.Save` (game.go): `SaveRound` for every player with the
computed frag limit, the ranking sort, sequential rank assignment,
the maxima loop (only `MaxKills` and `MaxKillDeathRatio` are cleared
first, exactly as in the source), and the return to warmup.  Logging
is a side effect with no bearing on the state and is not modelled. -/
def Save (g : Game) : Game :=
  let fragLimit := g.GetFragLimit
  let players := g.Players.map (fun p => p.SaveRound fragLimit)
  let playerSlice := sortLe (fun a b => !saveLess b a) players
  let ranked := assignRanks 0 playerSlice
  let g := { g with Players := ranked, MaxKillDeathRatio := .fin 0, MaxKills := 0 }
  let g := ranked.foldl foldMaxima g
  { g with IsWarmup := true }

/-- `Game.IsSkipped` (game.go). -/
def IsSkipped (g : Game) : Bool :=
  g.Config.SkipGames.contains g.CurentGameId

end Game

/-- `strings.Split(line, " ")` (Go keeps empty fields and yields one
field for the empty string). -/
def splitOnSpace : List Char → List GoStr
  | [] => [[]]
  | c :: rest =>
    let r := splitOnSpace rest
    if c = ' ' then [] :: r
    else
      match r with
      | [] => [[c]]
      | t :: ts => (c :: t) :: ts

/-- `strings.Replace(s, pat, "", 1)`: removal of the first occurrence
of the (non-empty) pattern. -/
def replaceFirstEmpty (pat : List Char) : List Char → List Char
  | [] => []
  | c :: rest =>
    if pat.isPrefixOf (c :: rest) then (c :: rest).drop pat.length
    else c :: replaceFirstEmpty pat rest

/-- `strings.Contains`. -/
def containsSeq (pat : List Char) : List Char → Bool
  | [] => pat.isPrefixOf ([] : List Char)
  | c :: rest => pat.isPrefixOf (c :: rest) || containsSeq pat rest

/-- The tokens at indices `[lo, lo+count)`, each read through the
panic-modelling `get?`; `none` stands for an out-of-range access. -/
def gatherTokens (toks : List GoStr) (lo : ℕ) : ℕ → Option (List GoStr)
  | 0 => some []
  | n + 1 => do
    let t ← toks.get? lo
    let r ← gatherTokens toks (lo + 1) n
    pure (t :: r)

/-- The space-joined run of tokens at indices `[lo, hi)` — the model of
the two `strings.Builder` loops of `parseKillEvent` (parser.go). -/
def joinTokens (toks : List GoStr) (lo hi : ℕ) : Option GoStr :=
  (gatherTokens toks lo (hi - lo)).map (List.intercalate [' '])

/-- `parseKillEvent` (parser.go): locate the first token equal to
`killed`, take the final token as the weapon, join tokens 6 up to the
`killed` index as the attacker and the tokens after it up to the final
`by <WEAPON>` pair as the victim.  `none` models a panicking slice
access; absence of `killed` yields empty names, as in the source. -/
def parseKillEvent (messageSplit : List GoStr) :
    Option (GoStr × GoStr × GoStr) :=
  match messageSplit.findIdx? (fun w => w = "killed".toList) with
  | none => some ([], [], [])
  | some killedIndex => do
    let weapon ← messageSplit.get? (messageSplit.length - 1)
    let attackerName ←
      if killedIndex > 6 then joinTokens messageSplit 6 killedIndex
      else pure []
    let victimName ←
      if killedIndex + 1 < messageSplit.length - 2 then
        joinTokens messageSplit (killedIndex + 1) (messageSplit.length - 2)
      else pure []
    pure (attackerName, victimName, weapon)

/-- The outcome of `ParseLine` (parser.go): `ok` is the `nil` error,
the others name the three `fmt.Errorf` conditions. -/
inductive ParseOutcome where
  | ok
  | errTooFewTokens
  | errEmptyName
  | errNameHasKilled
deriving DecidableEq, Repr

/-- `validateActionKill` (parser.go): `some` is the returned error. -/
def validateActionKill (attackerName victimName : GoStr) : Option ParseOutcome :=
  if attackerName = [] ∨ victimName = [] then some .errEmptyName
  else if containsSeq "killed".toList attackerName ∨
          containsSeq "killed".toList victimName then some .errNameHasKilled
  else none

/-- The trailing score-state block of `ParseLine` (parser.go), run after
the kill/map dispatch: a first `score:` line outside warmup closes the
round (unless the game is in the skip list); any other action ends a
score sequence. -/
def scoreSection (action : GoStr) (g : Game) (receivingScores : Bool) :
    Game × Bool :=
  if action = "score:".toList then
    if ¬receivingScores ∧ ¬g.IsWarmup then
      (if g.IsSkipped then g else g.Save, true)
    else (g, receivingScores)
  else (g, false)

/-- `ParseLine` (parser.go).  `md5hex` abstracts the timestamp hashing
(see `Game.NewMap`).  The result is `none` only if some slice access
would panic; the theorems below prove this never happens.  Logging is
not modelled. -/
def ParseLine (md5hex : GoStr → GoStr) (line : GoStr) (g : Game)
    (receivingScores : Bool) : Option (ParseOutcome × Game × Bool) :=
  let stripped := replaceFirstEmpty "]\x08 \x08".toList line
  let messageSplit := splitOnSpace stripped
  if messageSplit.length < 3 then some (.errTooFewTokens, g, receivingScores)
  else do
    let t0 ← messageSplit.get? 0
    let t1 ← messageSplit.get? 1
    let action ← messageSplit.get? 2
    let timestamp := t0 ++ ' ' :: t1
    if action = "Kill:".toList then do
      let (attackerName, victimName, weapon) ← parseKillEvent messageSplit
      match validateActionKill attackerName victimName with
      | some e => pure (e, g, receivingScores)
      | none =>
        let g := g.RecordKill attackerName victimName weapon
        let (g, rs) := scoreSection action g receivingScores
        pure (.ok, g, rs)
    else if action = "Server:".toList then
      if 4 ≤ messageSplit.length then do
        let newMapName ← messageSplit.get? 3
        let g := Game.NewMap md5hex g newMapName timestamp
        let (g, rs) := scoreSection action g receivingScores
        pure (.ok, g, rs)
      else
        let (g, rs) := scoreSection action g receivingScores
        pure (.ok, g, rs)
    else
      let (g, rs) := scoreSection action g receivingScores
      pure (.ok, g, rs)

/-- The ordering the claim describes for the ranking sort at round
close: cumulative score descending; on a score tie, when the shared
score is non-zero, cumulative kills descending and then name
descending; when the shared score is exactly zero, directly name
descending. -/
def saveOrder (a b : Player) : Prop :=
  a.Score.gt b.Score = true ∨
  (a.Score = b.Score ∧
    ((a.Score = .fin 0 ∧ lexLt a.Name b.Name = false) ∨
     (a.Score ≠ .fin 0 ∧
       (b.Kills < a.Kills ∨ (a.Kills = b.Kills ∧ lexLt a.Name b.Name = false)))))


/-- Modelled from the claim wording of C7: the "recomputed from
scratch" session maximum of an integer statistic over the non-ignored
players, with the usual 0 starting value. -/
def recomputedMaxClaim (f : Player → ℤ) (ps : List Player) : ℤ :=
  ((ps.filter (fun p => !p.IsIgnored)).map f).foldr max 0

/-- The interleaved skip-if-ignored maximum fold the maxima loop of
`Game.Save` performs on one integer statistic. -/
def maxFoldZ (f : Player → ℤ) (init : ℤ) (ps : List Player) : ℤ :=
  ps.foldl (fun acc p => if p.IsIgnored then acc else max acc (f p)) init

/-- The interleaved skip-if-ignored `gmax` fold of the maxima loop for
the kill-death ratio. -/
def maxFoldF (init : GoFloat) (ps : List Player) : GoFloat :=
  ps.foldl (fun acc p => if p.IsIgnored then acc else acc.gmax p.KillDeathRatio) init

/-- Rounding half away from zero, the specification-side reading of
`math.Round` in the claim about the unit formatter. -/
def roundAwayFromZero (x : ℚ) : ℤ :=
  if 0 ≤ x then ⌊x + 1/2⌋ else -⌊-x + 1/2⌋

/-- A placeholder hash function for concrete scenarios; every theorem
about `NewMap`/`ParseLine` is quantified over the hash function, so the
choice is immaterial. -/
def hashId : GoStr → GoStr := fun ts => ts

/-- Concrete scenario: fresh game, two map changes (ending warmup), one
railgun kill of B by A.  Used by several concrete counterexamples. -/
def gKill : Game :=
  Game.RecordKill
    (Game.NewMap hashId
      (Game.NewMap hashId (Game.NewGame {}) "m1".toList "t1".toList)
      "m2".toList "t2".toList)
    "A".toList "B".toList "MOD_RAILGUN".toList

/-- Concrete ledger with an ignored player and a normal player, not in
warmup. -/
def gIgn : Game :=
  { Players := [{ Name := "I".toList, IsIgnored := true }, { Name := "B".toList }] }

/-- Concrete ledger whose single player has negative round kills. -/
def gNeg : Game :=
  { Players := [{ Name := "V".toList, RoundKills := -1 }] }

/-- Concrete ledger exercising the maxima fold: one player with a round
kill, and a stale session maximum for deaths. -/
def gMaxD : Game :=
  { Players := [{ Name := "A".toList, RoundKills := 1 }], MaxDeaths := 7 }

/-- Concrete two-player ledger for the ranking-sort witness. -/
def gSortW : Game :=
  { Players := [{ Name := "B".toList, RoundDeaths := 1 },
                { Name := "A".toList, RoundKills := 2 }] }

section SortLemmas

variable {α : Type} (le : α → α → Bool)

theorem insertLe_perm (a : α) (l : List α) :
    List.Perm (insertLe le a l) (a :: l) := by
  induction l with
  | nil => simp [insertLe]
  | cons b bs ih =>
    by_cases h : le a b
    · simp [insertLe, h]
    · simp only [insertLe, h, Bool.false_eq_true, if_false]
      exact (ih.cons b).trans (List.Perm.swap a b bs)

theorem sortLe_perm (l : List α) : List.Perm (sortLe le l) l := by
  induction l with
  | nil => simp [sortLe]
  | cons a as ih => exact (insertLe_perm le a (sortLe le as)).trans (ih.cons a)

theorem mem_sortLe {x : α} {l : List α} : x ∈ sortLe le l ↔ x ∈ l :=
  (sortLe_perm le l).mem_iff

theorem length_sortLe (l : List α) : (sortLe le l).length = l.length :=
  (sortLe_perm le l).length_eq

theorem pairwise_insertLe (a : α) (l : List α)
    (hl : l.Pairwise (le · · = true))
    (htot : ∀ x ∈ l, le a x = true ∨ le x a = true)
    (htrans : ∀ x ∈ l, ∀ y ∈ l, le a x = true → le x y = true → le a y = true) :
    (insertLe le a l).Pairwise (le · · = true) := by
  induction l with
  | nil => simp [insertLe]
  | cons b bs ih =>
    rw [List.pairwise_cons] at hl
    obtain ⟨hb, hbs⟩ := hl
    by_cases h : le a b
    · simp only [insertLe, h, if_true]
      refine List.pairwise_cons.2 ⟨?_, List.pairwise_cons.2 ⟨hb, hbs⟩⟩
      intro x hx
      rcases List.mem_cons.1 hx with rfl | hx
      · exact h
      · exact htrans b (by simp) x (by simp [hx]) h (hb x hx)
    · simp only [insertLe, h, Bool.false_eq_true, if_false]
      refine List.pairwise_cons.2 ⟨?_, ?_⟩
      · intro x hx
        rcases List.mem_cons.1 ((insertLe_perm le a bs).mem_iff.1 hx) with rfl | hx
        · rcases htot b (by simp) with hba | hab
          · exact absurd hba h
          · exact hab
        · exact hb x hx
      · exact ih hbs (fun x hx => htot x (by simp [hx]))
          (fun x hx y hy => htrans x (by simp [hx]) y (by simp [hy]))

theorem pairwise_sortLe (l : List α)
    (htot : ∀ x ∈ l, ∀ y ∈ l, le x y = true ∨ le y x = true)
    (htrans : ∀ x ∈ l, ∀ y ∈ l, ∀ z ∈ l,
      le x y = true → le y z = true → le x z = true) :
    (sortLe le l).Pairwise (le · · = true) := by
  induction l with
  | nil => simp [sortLe]
  | cons a as ih =>
    refine pairwise_insertLe le a (sortLe le as)
      (ih (fun x hx y hy => htot x (by simp [hx]) y (by simp [hy]))
          (fun x hx y hy z hz =>
            htrans x (by simp [hx]) y (by simp [hy]) z (by simp [hz])))
      ?_ ?_
    · intro x hx
      exact htot a (by simp) x (by simp [(mem_sortLe le).1 hx])
    · intro x hx y hy
      exact htrans a (by simp) x (by simp [(mem_sortLe le).1 hx])
        y (by simp [(mem_sortLe le).1 hy])

end SortLemmas

theorem lexLt_irrefl (a : GoStr) : lexLt a a = false := by
  induction a with
  | nil => rfl
  | cons c cs ih => simp [lexLt, ih]

theorem lexLt_trans {a b c : GoStr} (hab : lexLt a b = true)
    (hbc : lexLt b c = true) : lexLt a c = true := by
  induction a generalizing b c with
  | nil =>
    cases b with
    | nil => simp [lexLt] at hab
    | cons y ys =>
      cases c with
      | nil => simp [lexLt] at hbc
      | cons z zs => simp [lexLt]
  | cons x xs ih =>
    cases b with
    | nil => simp [lexLt] at hab
    | cons y ys =>
      cases c with
      | nil => simp [lexLt] at hbc
      | cons z zs =>
        simp only [lexLt] at hab hbc ⊢
        by_cases hxy : x.toNat < y.toNat
        · by_cases hyz : y.toNat < z.toNat
          · simp [Nat.lt_trans hxy hyz]
          · simp only [hyz, if_false] at hbc
            by_cases hzy : z.toNat < y.toNat
            · simp [hzy] at hbc
            · have hv : y.toNat = z.toNat :=
                Nat.le_antisymm (Nat.not_lt.1 hzy) (Nat.not_lt.1 hyz)
              simp [hv ▸ hxy]
        · simp only [hxy, if_false] at hab
          by_cases hyx : y.toNat < x.toNat
          · simp [hyx] at hab
          · simp only [hyx, if_false] at hab
            have hv : x.toNat = y.toNat :=
              Nat.le_antisymm (Nat.not_lt.1 hyx) (Nat.not_lt.1 hxy)
            by_cases hyz : y.toNat < z.toNat
            · simp [hv ▸ hyz]
            · simp only [hyz, if_false] at hbc
              by_cases hzy : z.toNat < y.toNat
              · simp [hzy] at hbc
              · simp only [hzy, if_false] at hbc
                have hv' : y.toNat = z.toNat :=
                  Nat.le_antisymm (Nat.not_lt.1 hzy) (Nat.not_lt.1 hyz)
                simp only [hv.trans hv', Nat.lt_irrefl, if_false]
                exact ih hab hbc

theorem lexLt_connex {a b : GoStr} (hab : lexLt a b = false)
    (hba : lexLt b a = false) : a = b := by
  induction a generalizing b with
  | nil =>
    cases b with
    | nil => rfl
    | cons y ys => simp [lexLt] at hab
  | cons x xs ih =>
    cases b with
    | nil => simp [lexLt] at hba
    | cons y ys =>
      simp only [lexLt] at hab hba
      by_cases hxy : x.toNat < y.toNat
      · simp [hxy] at hab
      · by_cases hyx : y.toNat < x.toNat
        · simp [hxy, hyx] at hba
        · have hv : x.toNat = y.toNat :=
            Nat.le_antisymm (Nat.not_lt.1 hyx) (Nat.not_lt.1 hxy)
          have hc : x = y := by
            have := congrArg Char.ofNat hv
            rwa [Char.ofNat_toNat, Char.ofNat_toNat] at this
          simp only [hxy, hyx, if_false] at hab hba
          rw [hc, ih hab hba]

theorem lexLt_asymm {a b : GoStr} (hab : lexLt a b = true) :
    lexLt b a = false := by
  cases h : lexLt b a with
  | false => rfl
  | true =>
    have := lexLt_trans hab h
    rw [lexLt_irrefl] at this
    exact absurd this Bool.false_ne_true

theorem lexLt_false_trans {a b c : GoStr} (hab : lexLt a b = false)
    (hbc : lexLt b c = false) : lexLt a c = false := by
  cases hac : lexLt a c with
  | false => rfl
  | true =>
    cases hba : lexLt b a with
    | true =>
      have := lexLt_trans hba hac
      rw [hbc] at this
      exact this.symm
    | false =>
      rw [lexLt_connex hab hba] at hac
      rw [hbc] at hac
      exact hac.symm

theorem isFinite_ex {x : GoFloat} (h : x.isFinite = true) : ∃ q, x = .fin q := by
  cases x with
  | fin q => exact ⟨q, rfl⟩
  | pinf => simp [GoFloat.isFinite] at h
  | ninf => simp [GoFloat.isFinite] at h
  | nan => simp [GoFloat.isFinite] at h

theorem saveLess_fin {a b : Player} {p q : ℚ} (hp : a.Score = .fin p)
    (hq : b.Score = .fin q) :
    Game.saveLess b a =
      (if q ≠ p then decide (q > p)
       else if q = 0 then lexLt a.Name b.Name
       else if b.Kills ≠ a.Kills then decide (b.Kills > a.Kills)
       else lexLt a.Name b.Name) := by
  simp only [Game.saveLess, hp, hq, GoFloat.ne, GoFloat.gt, GoFloat.fin.injEq,
    decide_eq_true_eq]

theorem saveLe_iff {a b : Player} (ha : a.Score.isFinite = true)
    (hb : b.Score.isFinite = true) :
    ((!Game.saveLess b a) = true) ↔ saveOrder a b := by
  obtain ⟨p, hp⟩ := isFinite_ex ha
  obtain ⟨q, hq⟩ := isFinite_ex hb
  rw [saveLess_fin hp hq]
  unfold saveOrder
  rw [hp, hq]
  simp only [GoFloat.gt, GoFloat.fin.injEq, decide_eq_true_eq, ne_eq]
  by_cases hne : q = p
  · rw [if_neg (not_not_intro hne)]
    subst hne
    simp only [lt_irrefl, false_or, true_and]
    by_cases hz : q = 0
    · rw [if_pos hz]
      simp [hz, Bool.not_eq_true']
    · rw [if_neg hz]
      simp only [hz, not_false_iff, false_and, false_or, true_and]
      by_cases hk : b.Kills = a.Kills
      · rw [if_neg (not_not_intro hk)]
        simp [hk, Bool.not_eq_true']
      · rw [if_pos hk]
        simp only [Bool.not_eq_true', decide_eq_false_iff_not, not_lt]
        constructor
        · intro h
          exact Or.inl (by omega)
        · rintro (h | ⟨h, -⟩)
          · omega
          · omega
  · rw [if_pos hne]
    simp only [Bool.not_eq_true', decide_eq_false_iff_not, not_lt]
    constructor
    · intro h
      exact Or.inl (lt_of_le_of_ne h hne)
    · rintro (h | ⟨h, -⟩)
      · exact le_of_lt h
      · exact absurd h.symm hne

theorem saveOrder_fin {a b : Player} {p q : ℚ} (hp : a.Score = .fin p)
    (hq : b.Score = .fin q) :
    saveOrder a b ↔
      (q < p ∨ (p = q ∧
        ((p = 0 ∧ lexLt a.Name b.Name = false) ∨
         (¬p = 0 ∧ (b.Kills < a.Kills ∨
           (a.Kills = b.Kills ∧ lexLt a.Name b.Name = false)))))) := by
  unfold saveOrder
  rw [hp, hq]
  simp [GoFloat.gt, GoFloat.fin.injEq, decide_eq_true_eq, ne_eq]

theorem saveOrder_total {a b : Player} (ha : a.Score.isFinite = true)
    (hb : b.Score.isFinite = true) : saveOrder a b ∨ saveOrder b a := by
  obtain ⟨p, hp⟩ := isFinite_ex ha
  obtain ⟨q, hq⟩ := isFinite_ex hb
  rw [saveOrder_fin hp hq, saveOrder_fin hq hp]
  rcases lt_trichotomy p q with h | rfl | h
  · exact Or.inr (Or.inl h)
  · rcases hlex : lexLt a.Name b.Name with _ | _
    · by_cases hz : p = 0
      · exact Or.inl (Or.inr ⟨rfl, Or.inl ⟨hz, rfl⟩⟩)
      · rcases lt_trichotomy a.Kills b.Kills with hk | hk | hk
        · exact Or.inr (Or.inr ⟨rfl, Or.inr ⟨hz, Or.inl hk⟩⟩)
        · exact Or.inl (Or.inr ⟨rfl, Or.inr ⟨hz, Or.inr ⟨hk, rfl⟩⟩⟩)
        · exact Or.inl (Or.inr ⟨rfl, Or.inr ⟨hz, Or.inl hk⟩⟩)
    · have hlex' : lexLt b.Name a.Name = false := lexLt_asymm hlex
      by_cases hz : p = 0
      · exact Or.inr (Or.inr ⟨rfl, Or.inl ⟨hz, hlex'⟩⟩)
      · rcases lt_trichotomy a.Kills b.Kills with hk | hk | hk
        · exact Or.inr (Or.inr ⟨rfl, Or.inr ⟨hz, Or.inl hk⟩⟩)
        · exact Or.inr (Or.inr ⟨rfl, Or.inr ⟨hz, Or.inr ⟨hk.symm, hlex'⟩⟩⟩)
        · exact Or.inl (Or.inr ⟨rfl, Or.inr ⟨hz, Or.inl hk⟩⟩)
  · exact Or.inl (Or.inl h)

theorem saveOrder_trans {a b c : Player} (ha : a.Score.isFinite = true)
    (hb : b.Score.isFinite = true) (hc : c.Score.isFinite = true)
    (hab : saveOrder a b) (hbc : saveOrder b c) : saveOrder a c := by
  obtain ⟨p, hp⟩ := isFinite_ex ha
  obtain ⟨q, hq⟩ := isFinite_ex hb
  obtain ⟨r, hr⟩ := isFinite_ex hc
  rw [saveOrder_fin hp hq] at hab
  rw [saveOrder_fin hq hr] at hbc
  rw [saveOrder_fin hp hr]
  rcases hab with h1 | ⟨rfl, h1⟩
  · rcases hbc with h2 | ⟨rfl, h2⟩
    · exact Or.inl (lt_trans h2 h1)
    · exact Or.inl h1
  · rcases hbc with h2 | ⟨rfl, h2⟩
    · exact Or.inl h2
    · refine Or.inr ⟨rfl, ?_⟩
      rcases h1 with ⟨hz, hl1⟩ | ⟨hz, h1⟩
      · rcases h2 with ⟨-, hl2⟩ | ⟨hz2, -⟩
        · exact Or.inl ⟨hz, lexLt_false_trans hl1 hl2⟩
        · exact absurd hz hz2
      · rcases h2 with ⟨hz2, -⟩ | ⟨-, h2⟩
        · exact absurd hz2 hz
        · refine Or.inr ⟨hz, ?_⟩
          rcases h1 with hk1 | ⟨hk1, hl1⟩
          · rcases h2 with hk2 | ⟨hk2, -⟩
            · exact Or.inl (lt_trans hk2 hk1)
            · exact Or.inl (hk2 ▸ hk1)
          · rcases h2 with hk2 | ⟨hk2, hl2⟩
            · exact Or.inl (hk1 ▸ hk2)
            · exact Or.inr ⟨hk1.trans hk2, lexLt_false_trans hl1 hl2⟩

theorem SetRank_Score (p : Player) (r : ℤ) : (p.SetRank r).Score = p.Score := by
  unfold Player.SetRank
  split <;> rfl

theorem SetRank_Kills (p : Player) (r : ℤ) : (p.SetRank r).Kills = p.Kills := by
  unfold Player.SetRank
  split <;> rfl

theorem SetRank_Name (p : Player) (r : ℤ) : (p.SetRank r).Name = p.Name := by
  unfold Player.SetRank
  split <;> rfl

theorem SetRank_IsIgnored (p : Player) (r : ℤ) :
    (p.SetRank r).IsIgnored = p.IsIgnored := by
  unfold Player.SetRank
  split <;> rfl

theorem saveOrder_setRank {x y : Player} (m n : ℤ) :
    saveOrder (x.SetRank m) (y.SetRank n) ↔ saveOrder x y := by
  unfold saveOrder
  rw [SetRank_Score, SetRank_Score, SetRank_Kills, SetRank_Kills,
    SetRank_Name, SetRank_Name]

theorem assignRanks_length (k : ℕ) (l : List Player) :
    (Game.assignRanks k l).length = l.length := by
  induction l generalizing k with
  | nil => rfl
  | cons p ps ih => simp [Game.assignRanks, ih]

theorem assignRanks_get (k : ℕ) (l : List Player) (i : ℕ) (h : i < l.length)
    (h' : i < (Game.assignRanks k l).length) :
    (Game.assignRanks k l).get ⟨i, h'⟩ = (l.get ⟨i, h⟩).SetRank (k + i + 1) := by
  induction l generalizing k i with
  | nil => exact absurd h (by simp)
  | cons p ps ih =>
    cases i with
    | zero => simp [Game.assignRanks]
    | succ j =>
      have hj : j < ps.length := by simpa using h
      have hj' : j < (Game.assignRanks (k + 1) ps).length := by
        rw [assignRanks_length]
        exact hj
      have := ih (k + 1) j hj hj'
      simp only [Game.assignRanks, List.get_cons_succ]
      rw [this]
      congr 1
      omega

theorem mem_assignRanks {x : Player} {k : ℕ} {l : List Player}
    (hx : x ∈ Game.assignRanks k l) :
    ∃ y ∈ l, ∃ m : ℤ, x = y.SetRank m := by
  induction l generalizing k with
  | nil => simp [Game.assignRanks] at hx
  | cons p ps ih =>
    simp only [Game.assignRanks, List.mem_cons] at hx
    rcases hx with rfl | hx
    · exact ⟨p, by simp, (k + 1 : ℕ), rfl⟩
    · obtain ⟨y, hy, m, hm⟩ := ih hx
      exact ⟨y, by simp [hy], m, hm⟩

theorem mem_assignRanks_of_mem {y : Player} {l : List Player} (hy : y ∈ l)
    (k : ℕ) : ∃ m : ℤ, y.SetRank m ∈ Game.assignRanks k l := by
  induction l generalizing k with
  | nil => simp at hy
  | cons p ps ih =>
    rcases List.mem_cons.1 hy with rfl | hy
    · exact ⟨(k + 1 : ℕ), by simp [Game.assignRanks]⟩
    · obtain ⟨m, hm⟩ := ih hy (k + 1)
      exact ⟨m, by simp [Game.assignRanks, hm]⟩

theorem pairwise_assignRanks {l : List Player} (k : ℕ)
    (hl : l.Pairwise saveOrder) :
    (Game.assignRanks k l).Pairwise saveOrder := by
  induction l generalizing k with
  | nil => simp [Game.assignRanks]
  | cons p ps ih =>
    rw [List.pairwise_cons] at hl
    obtain ⟨hp, hps⟩ := hl
    refine List.pairwise_cons.2 ⟨?_, ih k.succ hps⟩
    intro x hx
    obtain ⟨y, hy, m, rfl⟩ := mem_assignRanks hx
    exact (saveOrder_setRank _ _).2 (hp y hy)

theorem foldMaxima_Players (g : Game) (l : List Player) :
    (l.foldl Game.foldMaxima g).Players = g.Players := by
  induction l generalizing g with
  | nil => rfl
  | cons p ps ih =>
    rw [List.foldl_cons, ih]
    unfold Game.foldMaxima
    split <;> rfl

theorem foldMaxima_IsWarmup (g : Game) (l : List Player) :
    (l.foldl Game.foldMaxima g).IsWarmup = g.IsWarmup := by
  induction l generalizing g with
  | nil => rfl
  | cons p ps ih =>
    rw [List.foldl_cons, ih]
    unfold Game.foldMaxima
    split <;> rfl

theorem Save_Players (g : Game) :
    (g.Save).Players =
      Game.assignRanks 0 (sortLe (fun a b => !Game.saveLess b a)
        (g.Players.map (fun p => p.SaveRound g.GetFragLimit))) := by
  unfold Game.Save
  rw [foldMaxima_Players]

theorem qadd_eq (a b : ℚ) : qadd a b = a + b := by
  rw [qadd, Rat.mkRat_eq_div]
  push_cast
  conv_rhs => rw [← Rat.num_div_den a, ← Rat.num_div_den b]
  rw [div_add_div _ _ (by positivity) (by positivity)]
  ring_nf

theorem qneg_eq (a : ℚ) : qneg a = -a := by
  rw [qneg, Rat.mkRat_eq_div]
  push_cast
  conv_rhs => rw [← Rat.num_div_den a]
  ring

theorem qsub_eq (a b : ℚ) : qsub a b = a - b := by
  rw [qsub, qadd_eq, qneg_eq]
  ring

theorem qmul_eq (a b : ℚ) : qmul a b = a * b := by
  rw [qmul, Rat.mkRat_eq_div]
  push_cast
  conv_rhs => rw [← Rat.num_div_den a, ← Rat.num_div_den b]
  rw [div_mul_div_comm]

theorem qdiv_eq (a b : ℚ) : qdiv a b = a / b := by
  by_cases hb : b = 0
  · subst hb
    simp [qdiv, Rat.divInt_eq_div]
  · rw [qdiv, Rat.divInt_eq_div]
    push_cast
    conv_rhs => rw [← Rat.num_div_den a, ← Rat.num_div_den b]
    have had : (a.den : ℚ) ≠ 0 := by
      exact_mod_cast a.den_nz
    have hbd : (b.den : ℚ) ≠ 0 := by
      exact_mod_cast b.den_nz
    have hbn : (b.num : ℚ) ≠ 0 := by
      exact_mod_cast Rat.num_ne_zero.2 hb
    field_simp

theorem qlt_iff (a b : ℚ) : Rat.blt a b = true ↔ a < b := Eq.to_iff rfl

theorem qmax_eq (a b : ℚ) : qmax a b = max a b := by
  rw [qmax, max_def]
  by_cases h : Rat.blt a b
  · rw [if_pos h, if_pos (le_of_lt ((qlt_iff a b).1 h))]
  · rw [if_neg h]
    by_cases hab : a = b
    · rw [if_pos (le_of_eq hab), hab]
    · rw [if_neg (fun hle => h ((qlt_iff a b).2 (lt_of_le_of_ne hle hab)))]

theorem qabs_eq (a : ℚ) : qabs a = |a| := by
  rw [qabs]
  by_cases h : Rat.blt a 0
  · rw [if_pos h, qneg_eq, abs_of_neg ((qlt_iff a 0).1 h)]
  · rw [if_neg h, abs_of_nonneg (not_lt.1 (fun hlt => h ((qlt_iff a 0).2 hlt)))]

theorem qfloor_eq (a : ℚ) : Rat.floor a = ⌊a⌋ := rfl

theorem qdivInt_eq (a b : ℤ) : Rat.divInt a b = (a : ℚ) / (b : ℚ) :=
  Rat.divInt_eq_div a b

theorem qhalf_eq : mkRat 1 2 = (1 / 2 : ℚ) := by
  rw [Rat.mkRat_eq_div]
  norm_num

theorem SaveRound_isFinite_of_ignored {p : Player} (h : p.IsIgnored = true)
    (f : ℤ) : (p.SaveRound f) = p := by
  unfold Player.SaveRound
  rw [if_pos h]

/-- C1.  At round close all players — ignored included — are sorted by
cumulative score descending, with the kills tie-break applied only to
non-zero tied scores and the name tie-break last (`saveOrder`), and the
player at sorted position `i` receives rank `i+1` (rank assignment is a
no-op on ignored players, whose positions still consume rank numbers).
The finiteness hypothesis excludes the degenerate rounds in which the
frag-limit division has produced non-finite scores; on those the Go
comparator is inconsistent and `sort.Slice` has no specified result. -/
theorem C1_save_sorts_and_ranks (g : Game)
    (hfin : ∀ p ∈ g.Players, (p.SaveRound g.GetFragLimit).Score.isFinite = true) :
    List.Sorted saveOrder (g.Save).Players ∧
    (g.Save).Players.length = g.Players.length ∧
    ∀ i (h : i < (g.Save).Players.length),
      ((g.Save).Players.get ⟨i, h⟩).IsIgnored = false →
      ((g.Save).Players.get ⟨i, h⟩).Rank = (i : ℤ) + 1 := by
  have hsp := Save_Players g
  set le : Player → Player → Bool := fun a b => !Game.saveLess b a with hle
  set saved : List Player := g.Players.map (fun p => p.SaveRound g.GetFragLimit)
    with hsaved
  have hfin' : ∀ x ∈ saved, x.Score.isFinite = true := by
    intro x hx
    rw [hsaved] at hx
    obtain ⟨p, hp, rfl⟩ := List.mem_map.1 hx
    exact hfin p hp
  have hfinsort : ∀ x ∈ sortLe le saved, x.Score.isFinite = true :=
    fun x hx => hfin' x ((mem_sortLe le).1 hx)
  have hpw : (sortLe le saved).Pairwise (le · · = true) := by
    refine pairwise_sortLe le saved ?_ ?_
    · intro x hx y hy
      rcases saveOrder_total (hfin' x hx) (hfin' y hy) with h | h
      · exact Or.inl ((saveLe_iff (hfin' x hx) (hfin' y hy)).2 h)
      · exact Or.inr ((saveLe_iff (hfin' y hy) (hfin' x hx)).2 h)
    · intro x hx y hy z hz hxy hyz
      exact (saveLe_iff (hfin' x hx) (hfin' z hz)).2
        (saveOrder_trans (hfin' x hx) (hfin' y hy) (hfin' z hz)
          ((saveLe_iff (hfin' x hx) (hfin' y hy)).1 hxy)
          ((saveLe_iff (hfin' y hy) (hfin' z hz)).1 hyz))
  have hpwso : (sortLe le saved).Pairwise saveOrder :=
    List.Pairwise.imp_of_mem
      (fun {x y} hx hy hxy =>
        (saveLe_iff (hfinsort x hx) (hfinsort y hy)).1 hxy) hpw
  refine ⟨?_, ?_, ?_⟩
  · rw [hsp]
    exact pairwise_assignRanks 0 hpwso
  · rw [hsp, assignRanks_length, length_sortLe, hsaved, List.length_map]
  · intro i h hig
    have hlen : i < (sortLe le saved).length := by
      have h2 := h
      rw [hsp, assignRanks_length] at h2
      exact h2
    have e := List.get_of_eq hsp ⟨i, h⟩
    have key : (g.Save).Players.get ⟨i, h⟩ =
        ((sortLe le saved).get ⟨i, hlen⟩).SetRank (0 + i + 1) := by
      rw [e]
      exact assignRanks_get 0 (sortLe le saved) i hlen
        (by rw [assignRanks_length]; exact hlen)
    rw [key] at hig ⊢
    rw [SetRank_IsIgnored] at hig
    unfold Player.SetRank
    rw [if_neg (by rw [hig]; exact Bool.false_ne_true)]
    show ((0 + i + 1 : ℕ) : ℤ) = (i : ℤ) + 1
    push_cast
    ring

/-- Witness for C1 at a concrete two-player ledger. -/
theorem C1_witness :
    List.Sorted saveOrder (Game.Save gSortW).Players ∧
    (Game.Save gSortW).Players.length = gSortW.Players.length ∧
    ∀ i (h : i < (Game.Save gSortW).Players.length),
      ((Game.Save gSortW).Players.get ⟨i, h⟩).IsIgnored = false →
      ((Game.Save gSortW).Players.get ⟨i, h⟩).Rank = (i : ℤ) + 1 :=
  C1_save_sorts_and_ranks gSortW (by decide)

theorem foldl_max_flip_spec (l : List Player) (init : ℤ) :
    init ≤ l.foldl (fun acc p => max p.RoundKills acc) init ∧
    (∀ p ∈ l, p.RoundKills ≤ l.foldl (fun acc p => max p.RoundKills acc) init) ∧
    (l.foldl (fun acc p => max p.RoundKills acc) init = init ∨
      ∃ p ∈ l, l.foldl (fun acc p => max p.RoundKills acc) init = p.RoundKills) := by
  induction l generalizing init with
  | nil => exact ⟨le_refl _, by simp, Or.inl rfl⟩
  | cons a as ih =>
    obtain ⟨h1, h2, h3⟩ := ih (max a.RoundKills init)
    rw [List.foldl_cons]
    refine ⟨le_trans (le_max_right _ _) h1, ?_, ?_⟩
    · intro p hp
      rcases List.mem_cons.1 hp with rfl | hp
      · exact le_trans (le_max_left _ _) h1
      · exact h2 p hp
    · rcases h3 with h3 | ⟨p, hp, h3⟩
      · rcases max_choice a.RoundKills init with hm | hm
        · exact Or.inr ⟨a, by simp, by rw [h3, hm]⟩
        · exact Or.inl (by rw [h3, hm])
      · exact Or.inr ⟨p, by simp [hp], h3⟩

theorem GetFragLimit_spec (g : Game) :
    0 ≤ g.GetFragLimit ∧
    (∀ p ∈ g.Players, p.RoundKills ≤ g.GetFragLimit) ∧
    (g.GetFragLimit = 0 ∨ ∃ p ∈ g.Players, g.GetFragLimit = p.RoundKills) :=
  foldl_max_flip_spec g.Players 0

/-- C5, counterexample: with a single player whose round kills are
negative, the computed frag limit is 0, not the (negative) maximum of
the round-kills values. -/
theorem C5_counterexample :
    Game.GetFragLimit gNeg = 0 ∧
    gNeg.Players.map Player.RoundKills = [-1] ∧
    Game.GetFragLimit gNeg ≠ -1 := by decide

/-- C5, amended: the frag limit is the maximum of 0 and the round-kills
values — the Go accumulator starts at 0, so with an all-negative (or
empty) ledger it is 0 rather than the negative maximum: it is an upper
bound of the round-kills values, is nonnegative, and is either 0 or
attained by some player. -/
theorem C5_fragLimit_amended (g : Game) :
    0 ≤ g.GetFragLimit ∧
    (∀ p ∈ g.Players, p.RoundKills ≤ g.GetFragLimit) ∧
    (g.GetFragLimit = 0 ∨ ∃ p ∈ g.Players, g.GetFragLimit = p.RoundKills) :=
  GetFragLimit_spec g

/-- Witness for the amended C5 at a concrete ledger. -/
theorem C5_witness :
    0 ≤ gKill.GetFragLimit ∧
    (∀ p ∈ gKill.Players, p.RoundKills ≤ gKill.GetFragLimit) ∧
    (gKill.GetFragLimit = 0 ∨ ∃ p ∈ gKill.Players, gKill.GetFragLimit = p.RoundKills) :=
  C5_fragLimit_amended gKill

theorem maxFoldZ_spec (f : Player → ℤ) (init : ℤ) (l : List Player) :
    init ≤ maxFoldZ f init l ∧
    (∀ p ∈ l, p.IsIgnored = false → f p ≤ maxFoldZ f init l) ∧
    (maxFoldZ f init l = init ∨
      ∃ p ∈ l, p.IsIgnored = false ∧ maxFoldZ f init l = f p) := by
  induction l generalizing init with
  | nil => exact ⟨le_refl _, by simp, Or.inl rfl⟩
  | cons a as ih =>
    by_cases hig : a.IsIgnored
    · obtain ⟨h1, h2, h3⟩ := ih init
      have he : maxFoldZ f init (a :: as) = maxFoldZ f init as := by
        unfold maxFoldZ
        rw [List.foldl_cons, if_pos hig]
      rw [he]
      refine ⟨h1, ?_, ?_⟩
      · intro p hp hpig
        rcases List.mem_cons.1 hp with rfl | hp
        · rw [hig] at hpig
          exact absurd hpig.symm Bool.false_ne_true
        · exact h2 p hp hpig
      · rcases h3 with h3 | ⟨p, hp, hpig, h3⟩
        · exact Or.inl h3
        · exact Or.inr ⟨p, by simp [hp], hpig, h3⟩
    · obtain ⟨h1, h2, h3⟩ := ih (max init (f a))
      have he : maxFoldZ f init (a :: as) = maxFoldZ f (max init (f a)) as := by
        unfold maxFoldZ
        rw [List.foldl_cons, if_neg hig]
      rw [he]
      refine ⟨le_trans (le_max_left _ _) h1, ?_, ?_⟩
      · intro p hp hpig
        rcases List.mem_cons.1 hp with rfl | hp
        · exact le_trans (le_max_right _ _) h1
        · exact h2 p hp hpig
      · rcases h3 with h3 | ⟨p, hp, hpig, h3⟩
        · rcases max_choice init (f a) with hm | hm
          · exact Or.inl (by rw [h3, hm])
          · exact Or.inr ⟨a, by simp, Bool.not_eq_true _ ▸ hig, by rw [h3, hm]⟩
        · exact Or.inr ⟨p, by simp [hp], hpig, h3⟩

theorem foldMaxima_MaxKills (g : Game) (l : List Player) :
    (l.foldl Game.foldMaxima g).MaxKills = maxFoldZ Player.Kills g.MaxKills l := by
  induction l generalizing g with
  | nil => rfl
  | cons a as ih =>
    rw [List.foldl_cons, ih]
    unfold Game.foldMaxima maxFoldZ
    rw [List.foldl_cons]
    by_cases hig : a.IsIgnored
    · rw [if_pos hig, if_pos hig]
    · rw [if_neg hig, if_neg hig]

theorem foldMaxima_MaxDeaths (g : Game) (l : List Player) :
    (l.foldl Game.foldMaxima g).MaxDeaths = maxFoldZ Player.Deaths g.MaxDeaths l := by
  induction l generalizing g with
  | nil => rfl
  | cons a as ih =>
    rw [List.foldl_cons, ih]
    unfold Game.foldMaxima maxFoldZ
    rw [List.foldl_cons]
    by_cases hig : a.IsIgnored
    · rw [if_pos hig, if_pos hig]
    · rw [if_neg hig, if_neg hig]

theorem foldMaxima_MaxRocketKills (g : Game) (l : List Player) :
    (l.foldl Game.foldMaxima g).MaxRocketKills =
      maxFoldZ Player.RocketKills g.MaxRocketKills l := by
  induction l generalizing g with
  | nil => rfl
  | cons a as ih =>
    rw [List.foldl_cons, ih]
    unfold Game.foldMaxima maxFoldZ
    rw [List.foldl_cons]
    by_cases hig : a.IsIgnored
    · rw [if_pos hig, if_pos hig]
    · rw [if_neg hig, if_neg hig]

theorem foldMaxima_MaxRailgunKills (g : Game) (l : List Player) :
    (l.foldl Game.foldMaxima g).MaxRailgunKills =
      maxFoldZ Player.RailgunKills g.MaxRailgunKills l := by
  induction l generalizing g with
  | nil => rfl
  | cons a as ih =>
    rw [List.foldl_cons, ih]
    unfold Game.foldMaxima maxFoldZ
    rw [List.foldl_cons]
    by_cases hig : a.IsIgnored
    · rw [if_pos hig, if_pos hig]
    · rw [if_neg hig, if_neg hig]

theorem foldMaxima_MaxGauntletKills (g : Game) (l : List Player) :
    (l.foldl Game.foldMaxima g).MaxGauntletKills =
      maxFoldZ Player.GauntletKills g.MaxGauntletKills l := by
  induction l generalizing g with
  | nil => rfl
  | cons a as ih =>
    rw [List.foldl_cons, ih]
    unfold Game.foldMaxima maxFoldZ
    rw [List.foldl_cons]
    by_cases hig : a.IsIgnored
    · rw [if_pos hig, if_pos hig]
    · rw [if_neg hig, if_neg hig]

theorem foldMaxima_MaxSuicides (g : Game) (l : List Player) :
    (l.foldl Game.foldMaxima g).MaxSuicides =
      maxFoldZ Player.SuicideDeaths g.MaxSuicides l := by
  induction l generalizing g with
  | nil => rfl
  | cons a as ih =>
    rw [List.foldl_cons, ih]
    unfold Game.foldMaxima maxFoldZ
    rw [List.foldl_cons]
    by_cases hig : a.IsIgnored
    · rw [if_pos hig, if_pos hig]
    · rw [if_neg hig, if_neg hig]

theorem foldMaxima_MaxKillingStreak (g : Game) (l : List Player) :
    (l.foldl Game.foldMaxima g).MaxKillingStreak =
      maxFoldZ Player.KillingStreak g.MaxKillingStreak l := by
  induction l generalizing g with
  | nil => rfl
  | cons a as ih =>
    rw [List.foldl_cons, ih]
    unfold Game.foldMaxima maxFoldZ
    rw [List.foldl_cons]
    by_cases hig : a.IsIgnored
    · rw [if_pos hig, if_pos hig]
    · rw [if_neg hig, if_neg hig]

theorem foldMaxima_MaxKDR (g : Game) (l : List Player) :
    (l.foldl Game.foldMaxima g).MaxKillDeathRatio =
      maxFoldF g.MaxKillDeathRatio l := by
  induction l generalizing g with
  | nil => rfl
  | cons a as ih =>
    rw [List.foldl_cons, ih]
    unfold Game.foldMaxima maxFoldF
    rw [List.foldl_cons]
    by_cases hig : a.IsIgnored
    · rw [if_pos hig, if_pos hig]
    · rw [if_neg hig, if_neg hig]

theorem maxFoldF_filter (init : GoFloat) (l : List Player) :
    maxFoldF init l =
      (l.filter (fun p => !p.IsIgnored)).foldl
        (fun acc p => acc.gmax p.KillDeathRatio) init := by
  induction l generalizing init with
  | nil => rfl
  | cons a as ih =>
    unfold maxFoldF at ih ⊢
    rw [List.foldl_cons]
    by_cases hig : a.IsIgnored
    · rw [if_pos hig, List.filter_cons_of_neg (by simp [hig]), ih]
    · rw [if_neg hig, List.filter_cons_of_pos (by simp [hig]), List.foldl_cons, ih]

theorem Save_MaxKills (g : Game) :
    (g.Save).MaxKills = maxFoldZ Player.Kills 0 (g.Save).Players := by
  unfold Game.Save
  simp only [foldMaxima_Players, foldMaxima_MaxKills]

theorem Save_MaxDeaths (g : Game) :
    (g.Save).MaxDeaths = maxFoldZ Player.Deaths g.MaxDeaths (g.Save).Players := by
  unfold Game.Save
  simp only [foldMaxima_Players, foldMaxima_MaxDeaths]

theorem Save_MaxRocketKills (g : Game) :
    (g.Save).MaxRocketKills =
      maxFoldZ Player.RocketKills g.MaxRocketKills (g.Save).Players := by
  unfold Game.Save
  simp only [foldMaxima_Players, foldMaxima_MaxRocketKills]

theorem Save_MaxRailgunKills (g : Game) :
    (g.Save).MaxRailgunKills =
      maxFoldZ Player.RailgunKills g.MaxRailgunKills (g.Save).Players := by
  unfold Game.Save
  simp only [foldMaxima_Players, foldMaxima_MaxRailgunKills]

theorem Save_MaxGauntletKills (g : Game) :
    (g.Save).MaxGauntletKills =
      maxFoldZ Player.GauntletKills g.MaxGauntletKills (g.Save).Players := by
  unfold Game.Save
  simp only [foldMaxima_Players, foldMaxima_MaxGauntletKills]

theorem Save_MaxSuicides (g : Game) :
    (g.Save).MaxSuicides =
      maxFoldZ Player.SuicideDeaths g.MaxSuicides (g.Save).Players := by
  unfold Game.Save
  simp only [foldMaxima_Players, foldMaxima_MaxSuicides]

theorem Save_MaxKillingStreak (g : Game) :
    (g.Save).MaxKillingStreak =
      maxFoldZ Player.KillingStreak g.MaxKillingStreak (g.Save).Players := by
  unfold Game.Save
  simp only [foldMaxima_Players, foldMaxima_MaxKillingStreak]

theorem Save_MaxKDR (g : Game) :
    (g.Save).MaxKillDeathRatio = maxFoldF (.fin 0) (g.Save).Players := by
  unfold Game.Save
  simp only [foldMaxima_Players, foldMaxima_MaxKDR]

/-- C7, counterexample: a stale session maximum for deaths survives the
round close — `Save` does not recompute `MaxDeaths` from scratch, it
folds the old value in, so the claim fails at this state, where every
non-ignored player has 0 cumulative deaths after the close yet the
stored maximum remains 7. -/
theorem C7_counterexample :
    (Game.Save gMaxD).MaxDeaths = 7 ∧
    recomputedMaxClaim Player.Deaths (Game.Save gMaxD).Players = 0 ∧
    (Game.Save gMaxD).MaxDeaths ≠
      recomputedMaxClaim Player.Deaths (Game.Save gMaxD).Players := by decide

/-- C7, amended: the maxima loop of `Save` runs over the non-ignored
players of the closed round, but only `MaxKills` and
`MaxKillDeathRatio` are cleared beforehand and thus recomputed from
scratch; the other six maxima fold their previous values in — each is
an upper bound of the corresponding statistic over non-ignored players,
is at least its previous value, and equals either the previous value or
some non-ignored player's statistic. -/
theorem C7_maxima_amended (g : Game) :
    (0 ≤ (g.Save).MaxKills ∧
      (∀ p ∈ (g.Save).Players, p.IsIgnored = false → p.Kills ≤ (g.Save).MaxKills) ∧
      ((g.Save).MaxKills = 0 ∨
        ∃ p ∈ (g.Save).Players, p.IsIgnored = false ∧ (g.Save).MaxKills = p.Kills)) ∧
    ((g.Save).MaxKillDeathRatio =
      ((g.Save).Players.filter (fun p => !p.IsIgnored)).foldl
        (fun acc p => acc.gmax p.KillDeathRatio) (.fin 0)) ∧
    (g.MaxDeaths ≤ (g.Save).MaxDeaths ∧
      (∀ p ∈ (g.Save).Players, p.IsIgnored = false → p.Deaths ≤ (g.Save).MaxDeaths) ∧
      ((g.Save).MaxDeaths = g.MaxDeaths ∨
        ∃ p ∈ (g.Save).Players, p.IsIgnored = false ∧ (g.Save).MaxDeaths = p.Deaths)) ∧
    (g.MaxRocketKills ≤ (g.Save).MaxRocketKills ∧
      (∀ p ∈ (g.Save).Players, p.IsIgnored = false →
        p.RocketKills ≤ (g.Save).MaxRocketKills) ∧
      ((g.Save).MaxRocketKills = g.MaxRocketKills ∨
        ∃ p ∈ (g.Save).Players, p.IsIgnored = false ∧
          (g.Save).MaxRocketKills = p.RocketKills)) ∧
    (g.MaxRailgunKills ≤ (g.Save).MaxRailgunKills ∧
      (∀ p ∈ (g.Save).Players, p.IsIgnored = false →
        p.RailgunKills ≤ (g.Save).MaxRailgunKills) ∧
      ((g.Save).MaxRailgunKills = g.MaxRailgunKills ∨
        ∃ p ∈ (g.Save).Players, p.IsIgnored = false ∧
          (g.Save).MaxRailgunKills = p.RailgunKills)) ∧
    (g.MaxGauntletKills ≤ (g.Save).MaxGauntletKills ∧
      (∀ p ∈ (g.Save).Players, p.IsIgnored = false →
        p.GauntletKills ≤ (g.Save).MaxGauntletKills) ∧
      ((g.Save).MaxGauntletKills = g.MaxGauntletKills ∨
        ∃ p ∈ (g.Save).Players, p.IsIgnored = false ∧
          (g.Save).MaxGauntletKills = p.GauntletKills)) ∧
    (g.MaxSuicides ≤ (g.Save).MaxSuicides ∧
      (∀ p ∈ (g.Save).Players, p.IsIgnored = false →
        p.SuicideDeaths ≤ (g.Save).MaxSuicides) ∧
      ((g.Save).MaxSuicides = g.MaxSuicides ∨
        ∃ p ∈ (g.Save).Players, p.IsIgnored = false ∧
          (g.Save).MaxSuicides = p.SuicideDeaths)) ∧
    (g.MaxKillingStreak ≤ (g.Save).MaxKillingStreak ∧
      (∀ p ∈ (g.Save).Players, p.IsIgnored = false →
        p.KillingStreak ≤ (g.Save).MaxKillingStreak) ∧
      ((g.Save).MaxKillingStreak = g.MaxKillingStreak ∨
        ∃ p ∈ (g.Save).Players, p.IsIgnored = false ∧
          (g.Save).MaxKillingStreak = p.KillingStreak)) := by
  refine ⟨?_, ?_, ?_, ?_, ?_, ?_, ?_, ?_⟩
  · rw [Save_MaxKills]
    exact maxFoldZ_spec Player.Kills 0 (g.Save).Players
  · rw [Save_MaxKDR]
    exact maxFoldF_filter (.fin 0) (g.Save).Players
  · rw [Save_MaxDeaths]
    exact maxFoldZ_spec Player.Deaths g.MaxDeaths (g.Save).Players
  · rw [Save_MaxRocketKills]
    exact maxFoldZ_spec Player.RocketKills g.MaxRocketKills (g.Save).Players
  · rw [Save_MaxRailgunKills]
    exact maxFoldZ_spec Player.RailgunKills g.MaxRailgunKills (g.Save).Players
  · rw [Save_MaxGauntletKills]
    exact maxFoldZ_spec Player.GauntletKills g.MaxGauntletKills (g.Save).Players
  · rw [Save_MaxSuicides]
    exact maxFoldZ_spec Player.SuicideDeaths g.MaxSuicides (g.Save).Players
  · rw [Save_MaxKillingStreak]
    exact maxFoldZ_spec Player.KillingStreak g.MaxKillingStreak (g.Save).Players

/-- Witness for the amended C7 at the concrete ledger of the
counterexample. -/
theorem C7_witness :
    (0 ≤ (Game.Save gMaxD).MaxKills ∧
      (∀ p ∈ (Game.Save gMaxD).Players, p.IsIgnored = false →
        p.Kills ≤ (Game.Save gMaxD).MaxKills) ∧
      ((Game.Save gMaxD).MaxKills = 0 ∨
        ∃ p ∈ (Game.Save gMaxD).Players, p.IsIgnored = false ∧
          (Game.Save gMaxD).MaxKills = p.Kills)) ∧
    ((Game.Save gMaxD).MaxKillDeathRatio =
      ((Game.Save gMaxD).Players.filter (fun p => !p.IsIgnored)).foldl
        (fun acc p => acc.gmax p.KillDeathRatio) (.fin 0)) ∧
    (gMaxD.MaxDeaths ≤ (Game.Save gMaxD).MaxDeaths ∧
      (∀ p ∈ (Game.Save gMaxD).Players, p.IsIgnored = false →
        p.Deaths ≤ (Game.Save gMaxD).MaxDeaths) ∧
      ((Game.Save gMaxD).MaxDeaths = gMaxD.MaxDeaths ∨
        ∃ p ∈ (Game.Save gMaxD).Players, p.IsIgnored = false ∧
          (Game.Save gMaxD).MaxDeaths = p.Deaths)) ∧
    (gMaxD.MaxRocketKills ≤ (Game.Save gMaxD).MaxRocketKills ∧
      (∀ p ∈ (Game.Save gMaxD).Players, p.IsIgnored = false →
        p.RocketKills ≤ (Game.Save gMaxD).MaxRocketKills) ∧
      ((Game.Save gMaxD).MaxRocketKills = gMaxD.MaxRocketKills ∨
        ∃ p ∈ (Game.Save gMaxD).Players, p.IsIgnored = false ∧
          (Game.Save gMaxD).MaxRocketKills = p.RocketKills)) ∧
    (gMaxD.MaxRailgunKills ≤ (Game.Save gMaxD).MaxRailgunKills ∧
      (∀ p ∈ (Game.Save gMaxD).Players, p.IsIgnored = false →
        p.RailgunKills ≤ (Game.Save gMaxD).MaxRailgunKills) ∧
      ((Game.Save gMaxD).MaxRailgunKills = gMaxD.MaxRailgunKills ∨
        ∃ p ∈ (Game.Save gMaxD).Players, p.IsIgnored = false ∧
          (Game.Save gMaxD).MaxRailgunKills = p.RailgunKills)) ∧
    (gMaxD.MaxGauntletKills ≤ (Game.Save gMaxD).MaxGauntletKills ∧
      (∀ p ∈ (Game.Save gMaxD).Players, p.IsIgnored = false →
        p.GauntletKills ≤ (Game.Save gMaxD).MaxGauntletKills) ∧
      ((Game.Save gMaxD).MaxGauntletKills = gMaxD.MaxGauntletKills ∨
        ∃ p ∈ (Game.Save gMaxD).Players, p.IsIgnored = false ∧
          (Game.Save gMaxD).MaxGauntletKills = p.GauntletKills)) ∧
    (gMaxD.MaxSuicides ≤ (Game.Save gMaxD).MaxSuicides ∧
      (∀ p ∈ (Game.Save gMaxD).Players, p.IsIgnored = false →
        p.SuicideDeaths ≤ (Game.Save gMaxD).MaxSuicides) ∧
      ((Game.Save gMaxD).MaxSuicides = gMaxD.MaxSuicides ∨
        ∃ p ∈ (Game.Save gMaxD).Players, p.IsIgnored = false ∧
          (Game.Save gMaxD).MaxSuicides = p.SuicideDeaths)) ∧
    (gMaxD.MaxKillingStreak ≤ (Game.Save gMaxD).MaxKillingStreak ∧
      (∀ p ∈ (Game.Save gMaxD).Players, p.IsIgnored = false →
        p.KillingStreak ≤ (Game.Save gMaxD).MaxKillingStreak) ∧
      ((Game.Save gMaxD).MaxKillingStreak = gMaxD.MaxKillingStreak ∨
        ∃ p ∈ (Game.Save gMaxD).Players, p.IsIgnored = false ∧
          (Game.Save gMaxD).MaxKillingStreak = p.KillingStreak)) :=
  C7_maxima_amended gMaxD

theorem recalc_fields (p : Player) :
    (p.RecalculateKillDeathRatio).Name = p.Name ∧
    (p.RecalculateKillDeathRatio).IsIgnored = p.IsIgnored ∧
    (p.RecalculateKillDeathRatio).Score = p.Score ∧
    (p.RecalculateKillDeathRatio).Rank = p.Rank ∧
    (p.RecalculateKillDeathRatio).PrevRank = p.PrevRank ∧
    (p.RecalculateKillDeathRatio).Kills = p.Kills ∧
    (p.RecalculateKillDeathRatio).Deaths = p.Deaths ∧
    (p.RecalculateKillDeathRatio).RocketKills = p.RocketKills ∧
    (p.RecalculateKillDeathRatio).RailgunKills = p.RailgunKills ∧
    (p.RecalculateKillDeathRatio).GauntletKills = p.GauntletKills ∧
    (p.RecalculateKillDeathRatio).SuicideDeaths = p.SuicideDeaths ∧
    (p.RecalculateKillDeathRatio).KillingStreak = p.KillingStreak ∧
    (p.RecalculateKillDeathRatio).RoundKills = p.RoundKills ∧
    (p.RecalculateKillDeathRatio).RoundDeaths = p.RoundDeaths ∧
    (p.RecalculateKillDeathRatio).RoundRocketKills = p.RoundRocketKills ∧
    (p.RecalculateKillDeathRatio).RoundRailgunKills = p.RoundRailgunKills ∧
    (p.RecalculateKillDeathRatio).RoundGauntletKills = p.RoundGauntletKills ∧
    (p.RecalculateKillDeathRatio).RoundSuicideDeaths = p.RoundSuicideDeaths ∧
    (p.RecalculateKillDeathRatio).RoundKillingStreak = p.RoundKillingStreak ∧
    (p.RecalculateKillDeathRatio).RoundCurrentKillingStreak =
      p.RoundCurrentKillingStreak := by
  unfold Player.RecalculateKillDeathRatio
  split
  · simp
  · split <;> simp

theorem SaveRound_fields {p : Player} (h : p.IsIgnored = false) (f : ℤ) :
    (p.SaveRound f).RoundKills = 0 ∧
    (p.SaveRound f).RoundDeaths = 0 ∧
    (p.SaveRound f).RoundRocketKills = 0 ∧
    (p.SaveRound f).RoundRailgunKills = 0 ∧
    (p.SaveRound f).RoundGauntletKills = 0 ∧
    (p.SaveRound f).RoundSuicideDeaths = 0 ∧
    (p.SaveRound f).RoundKillingStreak = p.RoundKillingStreak ∧
    (p.SaveRound f).RoundCurrentKillingStreak = p.RoundCurrentKillingStreak ∧
    (p.SaveRound f).Kills = p.Kills + p.RoundKills ∧
    (p.SaveRound f).Deaths = p.Deaths + p.RoundDeaths ∧
    (p.SaveRound f).Score = p.Score.add (goDivInt p.RoundKills f) ∧
    (p.SaveRound f).Name = p.Name ∧
    (p.SaveRound f).IsIgnored = p.IsIgnored := by
  unfold Player.SaveRound
  rw [if_neg (by rw [h]; exact Bool.false_ne_true)]
  obtain ⟨h1, h2, h3, h4, h5, h6, h7, h8, h9, h10, h11, h12, h13, h14, h15,
    h16, h17, h18, h19, h20⟩ := recalc_fields
      { p with
        Score := p.Score.add (goDivInt p.RoundKills f)
        Score14 := calculateScore14 (p.Score.add (goDivInt p.RoundKills f))
          p.IsDrinkingCider
        Diff := goDivInt p.RoundKills f
        Diff14 := calculateScore14
          ((p.Score.add (goDivInt p.RoundKills f)).sub p.Score) p.IsDrinkingCider
        Kills := p.Kills + p.RoundKills
        Deaths := p.Deaths + p.RoundDeaths
        RocketKills := p.RocketKills + p.RoundRocketKills
        RailgunKills := p.RailgunKills + p.RoundRailgunKills
        GauntletKills := p.GauntletKills + p.RoundGauntletKills
        SuicideDeaths := p.SuicideDeaths + p.RoundSuicideDeaths
        KillingStreak := max p.KillingStreak p.RoundKillingStreak
        RoundKills := 0
        RoundDeaths := 0
        RoundRocketKills := 0
        RoundRailgunKills := 0
        RoundGauntletKills := 0
        RoundSuicideDeaths := 0 }
  exact ⟨h13, h14, h15, h16, h17, h18, h19, h20, h6, h7, h3, h1, h2⟩

theorem SaveRound_IsIgnored (p : Player) (f : ℤ) :
    (p.SaveRound f).IsIgnored = p.IsIgnored := by
  by_cases h : p.IsIgnored
  · rw [SaveRound_isFinite_of_ignored h]
  · exact (SaveRound_fields (Bool.not_eq_true _ ▸ h) f).2.2.2.2.2.2.2.2.2.2.2.2

theorem DiscardRound_ignored {p : Player} (h : p.IsIgnored = true) :
    p.DiscardRound = p := by
  unfold Player.DiscardRound
  rw [if_pos h]

theorem DiscardRound_fields {p : Player} (h : p.IsIgnored = false) :
    p.DiscardRound.RoundKills = 0 ∧
    p.DiscardRound.RoundDeaths = 0 ∧
    p.DiscardRound.RoundRocketKills = 0 ∧
    p.DiscardRound.RoundRailgunKills = 0 ∧
    p.DiscardRound.RoundGauntletKills = 0 ∧
    p.DiscardRound.RoundSuicideDeaths = 0 ∧
    p.DiscardRound.RoundKillingStreak = 0 ∧
    p.DiscardRound.RoundCurrentKillingStreak = p.RoundCurrentKillingStreak ∧
    p.DiscardRound.Kills = p.Kills ∧
    p.DiscardRound.Deaths = p.Deaths ∧
    p.DiscardRound.Score = p.Score ∧
    p.DiscardRound.Rank = p.Rank ∧
    p.DiscardRound.KillingStreak = p.KillingStreak ∧
    p.DiscardRound.Name = p.Name ∧
    p.DiscardRound.IsIgnored = p.IsIgnored := by
  unfold Player.DiscardRound
  rw [if_neg (by rw [h]; exact Bool.false_ne_true)]
  obtain ⟨h1, h2, h3, h4, h5, h6, h7, h8, h9, h10, h11, h12, h13, h14, h15,
    h16, h17, h18, h19, h20⟩ := recalc_fields
      { p with
        RoundKills := 0
        RoundDeaths := 0
        RoundRocketKills := 0
        RoundRailgunKills := 0
        RoundGauntletKills := 0
        RoundSuicideDeaths := 0
        RoundKillingStreak := 0 }
  exact ⟨h13, h14, h15, h16, h17, h18, h19, h20, h6, h7, h3, h4, h12, h1, h2⟩

theorem DiscardRound_IsIgnored (p : Player) :
    p.DiscardRound.IsIgnored = p.IsIgnored := by
  by_cases h : p.IsIgnored
  · rw [DiscardRound_ignored h]
  · exact (DiscardRound_fields (Bool.not_eq_true _ ▸ h)).2.2.2.2.2.2.2.2.2.2.2.2.2.2

theorem SetRank_roundFields (p : Player) (r : ℤ) :
    (p.SetRank r).RoundKills = p.RoundKills ∧
    (p.SetRank r).RoundDeaths = p.RoundDeaths ∧
    (p.SetRank r).RoundRocketKills = p.RoundRocketKills ∧
    (p.SetRank r).RoundRailgunKills = p.RoundRailgunKills ∧
    (p.SetRank r).RoundGauntletKills = p.RoundGauntletKills ∧
    (p.SetRank r).RoundSuicideDeaths = p.RoundSuicideDeaths ∧
    (p.SetRank r).RoundKillingStreak = p.RoundKillingStreak ∧
    (p.SetRank r).RoundCurrentKillingStreak = p.RoundCurrentKillingStreak := by
  unfold Player.SetRank
  split <;> simp

theorem NewMap_Players (md5hex : GoStr → GoStr) (g : Game) (n ts : GoStr) :
    (g.NewMap md5hex n ts).Players = g.Players.map Player.DiscardRound := by
  unfold Game.NewMap
  split <;> rfl

/-- C3, counterexample: in a reachable scenario (two map changes, one
kill, then a round save) the killer's round-current-streak and
round-best-streak fields are still 1 after `Save`, and the current
streak also survives a subsequent map change — the round-volatile
fields are not all zero immediately after a save or a map change. -/
theorem C3_counterexample :
    ¬ (∀ p ∈ (Game.Save gKill).Players,
        p.RoundCurrentKillingStreak = 0 ∧ p.RoundKillingStreak = 0) ∧
    ¬ (∀ p ∈ (Game.NewMap hashId gKill "m3".toList "t3".toList).Players,
        p.RoundCurrentKillingStreak = 0) := by decide

/-- C3, amended: immediately after a round save every non-ignored
player's round-kills, -deaths, -suicide-deaths and -weapon-kill fields
are zero, but the two streak fields are carried over unreset;
immediately after a map change those six and the round-best-streak are
zero, but the round-current-streak is carried over.  (Ignored players
are skipped by both reset routines; their round fields never change in
the first place because every increment is a no-op on them.) -/
theorem C3_round_reset_amended (g : Game) :
    (∀ p ∈ (g.Save).Players, p.IsIgnored = false →
      p.RoundKills = 0 ∧ p.RoundDeaths = 0 ∧ p.RoundSuicideDeaths = 0 ∧
      p.RoundRocketKills = 0 ∧ p.RoundRailgunKills = 0 ∧
      p.RoundGauntletKills = 0) ∧
    (∀ md5hex n ts, ∀ p ∈ (g.NewMap md5hex n ts).Players, p.IsIgnored = false →
      p.RoundKills = 0 ∧ p.RoundDeaths = 0 ∧ p.RoundSuicideDeaths = 0 ∧
      p.RoundRocketKills = 0 ∧ p.RoundRailgunKills = 0 ∧
      p.RoundGauntletKills = 0 ∧ p.RoundKillingStreak = 0) ∧
    (∀ p : Player, p.IsIgnored = false → ∀ f : ℤ,
      (p.SaveRound f).RoundKillingStreak = p.RoundKillingStreak ∧
      (p.SaveRound f).RoundCurrentKillingStreak = p.RoundCurrentKillingStreak ∧
      p.DiscardRound.RoundCurrentKillingStreak = p.RoundCurrentKillingStreak) := by
  refine ⟨?_, ?_, ?_⟩
  · intro p hp hig
    rw [Save_Players g] at hp
    obtain ⟨y, hy, m, rfl⟩ := mem_assignRanks hp
    obtain ⟨x, hx, rfl⟩ := List.mem_map.1 ((mem_sortLe _).1 hy)
    rw [SetRank_IsIgnored, SaveRound_IsIgnored] at hig
    obtain ⟨r1, r2, r3, r4, r5, r6, r7, r8⟩ :=
      SetRank_roundFields (x.SaveRound g.GetFragLimit) m
    obtain ⟨s1, s2, s3, s4, s5, s6, -⟩ := SaveRound_fields hig g.GetFragLimit
    exact ⟨r1.trans s1, r2.trans s2, r6.trans s6, r3.trans s3,
      r4.trans s4, r5.trans s5⟩
  · intro md5hex n ts p hp hig
    rw [NewMap_Players] at hp
    obtain ⟨x, hx, rfl⟩ := List.mem_map.1 hp
    rw [DiscardRound_IsIgnored] at hig
    obtain ⟨d1, d2, d3, d4, d5, d6, d7, -⟩ := DiscardRound_fields hig
    exact ⟨d1, d2, d6, d3, d4, d5, d7⟩
  · intro p hig f
    obtain ⟨-, -, -, -, -, -, s7, s8, -⟩ := SaveRound_fields hig f
    obtain ⟨-, -, -, -, -, -, -, d8, -⟩ := DiscardRound_fields hig
    exact ⟨s7, s8, d8⟩

/-- Witness for the amended C3 at the concrete kill scenario. -/
theorem C3_witness :
    (∀ p ∈ (Game.Save gKill).Players, p.IsIgnored = false →
      p.RoundKills = 0 ∧ p.RoundDeaths = 0 ∧ p.RoundSuicideDeaths = 0 ∧
      p.RoundRocketKills = 0 ∧ p.RoundRailgunKills = 0 ∧
      p.RoundGauntletKills = 0) ∧
    (∀ md5hex n ts, ∀ p ∈ (gKill.NewMap md5hex n ts).Players,
      p.IsIgnored = false →
      p.RoundKills = 0 ∧ p.RoundDeaths = 0 ∧ p.RoundSuicideDeaths = 0 ∧
      p.RoundRocketKills = 0 ∧ p.RoundRailgunKills = 0 ∧
      p.RoundGauntletKills = 0 ∧ p.RoundKillingStreak = 0) ∧
    (∀ p : Player, p.IsIgnored = false → ∀ f : ℤ,
      (p.SaveRound f).RoundKillingStreak = p.RoundKillingStreak ∧
      (p.SaveRound f).RoundCurrentKillingStreak = p.RoundCurrentKillingStreak ∧
      p.DiscardRound.RoundCurrentKillingStreak = p.RoundCurrentKillingStreak) :=
  C3_round_reset_amended gKill

/-- C4, counterexample: a `Server:` line repeating the current map name
is not a no-op — the unconditional discard wipes the in-progress round:
player A's round-kills drop from 1 to 0. -/
theorem C4_counterexample :
    gKill.CurrentMapName = "m2".toList ∧
    ((gKill.Players.find? (fun p => p.Name = "A".toList)).map
      Player.RoundKills) = some 1 ∧
    (((gKill.NewMap hashId "m2".toList "t9".toList).Players.find?
      (fun p => p.Name = "A".toList)).map Player.RoundKills) = some 0 := by decide

/-- C4, amended: a `MapChange` whose incoming name equals the current
map leaves the warmup flag, map-change counter, current map and round
identifier unchanged, but still runs the round discard on every player:
cumulative counters, rank and identity survive, while every non-ignored
player's round-volatile fields except the current streak are cleared
(ignored players are untouched). -/
theorem C4_same_map_amended (md5hex : GoStr → GoStr) (g : Game) (ts : GoStr) :
    (g.NewMap md5hex g.CurrentMapName ts).IsWarmup = g.IsWarmup ∧
    (g.NewMap md5hex g.CurrentMapName ts).MapChanges = g.MapChanges ∧
    (g.NewMap md5hex g.CurrentMapName ts).CurrentMapName = g.CurrentMapName ∧
    (g.NewMap md5hex g.CurrentMapName ts).CurentGameId = g.CurentGameId ∧
    (g.NewMap md5hex g.CurrentMapName ts).Players =
      g.Players.map Player.DiscardRound ∧
    ∀ p ∈ g.Players,
      (p.DiscardRound.Kills = p.Kills ∧ p.DiscardRound.Deaths = p.Deaths ∧
        p.DiscardRound.Score = p.Score ∧ p.DiscardRound.Rank = p.Rank ∧
        p.DiscardRound.KillingStreak = p.KillingStreak ∧
        p.DiscardRound.Name = p.Name) ∧
      (p.IsIgnored = false →
        p.DiscardRound.RoundKills = 0 ∧ p.DiscardRound.RoundDeaths = 0 ∧
        p.DiscardRound.RoundSuicideDeaths = 0 ∧
        p.DiscardRound.RoundRocketKills = 0 ∧
        p.DiscardRound.RoundRailgunKills = 0 ∧
        p.DiscardRound.RoundGauntletKills = 0 ∧
        p.DiscardRound.RoundKillingStreak = 0 ∧
        p.DiscardRound.RoundCurrentKillingStreak = p.RoundCurrentKillingStreak) ∧
      (p.IsIgnored = true → p.DiscardRound = p) := by
  have hcond : ¬ (g.CurrentMapName ≠ g.CurrentMapName) := not_not_intro rfl
  refine ⟨?_, ?_, ?_, ?_, NewMap_Players md5hex g g.CurrentMapName ts, ?_⟩
  · unfold Game.NewMap
    rw [if_neg hcond]
  · unfold Game.NewMap
    rw [if_neg hcond]
  · unfold Game.NewMap
    rw [if_neg hcond]
  · unfold Game.NewMap
    rw [if_neg hcond]
  · intro p hp
    refine ⟨?_, ?_, fun h => DiscardRound_ignored h⟩
    · by_cases hig : p.IsIgnored
      · rw [DiscardRound_ignored hig]
        exact ⟨rfl, rfl, rfl, rfl, rfl, rfl⟩
      · obtain ⟨-, -, -, -, -, -, -, -, d9, d10, d11, d12, d13, d14, -⟩ :=
          DiscardRound_fields (Bool.not_eq_true _ ▸ hig)
        exact ⟨d9, d10, d11, d12, d13, d14⟩
    · intro hig
      obtain ⟨d1, d2, d3, d4, d5, d6, d7, d8, -⟩ := DiscardRound_fields hig
      exact ⟨d1, d2, d6, d3, d4, d5, d7, d8⟩

/-- Witness for the amended C4 at the concrete kill scenario. -/
theorem C4_witness :
    (gKill.NewMap hashId gKill.CurrentMapName "t9".toList).IsWarmup =
      gKill.IsWarmup ∧
    (gKill.NewMap hashId gKill.CurrentMapName "t9".toList).MapChanges =
      gKill.MapChanges ∧
    (gKill.NewMap hashId gKill.CurrentMapName "t9".toList).CurrentMapName =
      gKill.CurrentMapName ∧
    (gKill.NewMap hashId gKill.CurrentMapName "t9".toList).CurentGameId =
      gKill.CurentGameId ∧
    (gKill.NewMap hashId gKill.CurrentMapName "t9".toList).Players =
      gKill.Players.map Player.DiscardRound ∧
    ∀ p ∈ gKill.Players,
      (p.DiscardRound.Kills = p.Kills ∧ p.DiscardRound.Deaths = p.Deaths ∧
        p.DiscardRound.Score = p.Score ∧ p.DiscardRound.Rank = p.Rank ∧
        p.DiscardRound.KillingStreak = p.KillingStreak ∧
        p.DiscardRound.Name = p.Name) ∧
      (p.IsIgnored = false →
        p.DiscardRound.RoundKills = 0 ∧ p.DiscardRound.RoundDeaths = 0 ∧
        p.DiscardRound.RoundSuicideDeaths = 0 ∧
        p.DiscardRound.RoundRocketKills = 0 ∧
        p.DiscardRound.RoundRailgunKills = 0 ∧
        p.DiscardRound.RoundGauntletKills = 0 ∧
        p.DiscardRound.RoundKillingStreak = 0 ∧
        p.DiscardRound.RoundCurrentKillingStreak = p.RoundCurrentKillingStreak) ∧
      (p.IsIgnored = true → p.DiscardRound = p) :=
  C4_same_map_amended hashId gKill "t9".toList

theorem mem_save_of_mem {g : Game} {p : Player} (hp : p ∈ g.Players) :
    ∃ m : ℤ, ((p.SaveRound g.GetFragLimit).SetRank m) ∈ (g.Save).Players := by
  rw [Save_Players]
  exact mem_assignRanks_of_mem
    ((mem_sortLe _).2 (List.mem_map_of_mem _ hp)) 0

theorem goDivInt_zero_den (a : ℤ) :
    goDivInt a 0 = (if a = 0 then GoFloat.nan
      else if 0 < a then GoFloat.pinf else GoFloat.ninf) := by
  unfold goDivInt
  rw [if_neg (not_not_intro rfl)]

/-- C6, counterexample: with frag limit 0 the save still divides by the
zero denominator; the single player's score changes from 0 to `-Inf`
(round kills −1 divided by 0 under IEEE-754). -/
theorem C6_counterexample :
    gNeg.GetFragLimit = 0 ∧
    ((gNeg.Players.find? (fun p => p.Name = "V".toList)).map Player.Score) =
      some (.fin 0) ∧
    (((Game.Save gNeg).Players.find? (fun p => p.Name = "V".toList)).map
      Player.Score) = some GoFloat.ninf ∧
    GoFloat.ninf ≠ GoFloat.fin 0 := by decide

/-- C6, amended: when the computed frag limit is 0, the round close does
NOT leave scores unchanged — the division executes with a zero
denominator, so every non-ignored player with a finite score ends the
save with score `NaN` (round-kills 0) or `-Inf` (negative round-kills),
both different from the previous score. -/
theorem C6_zero_frag_amended (g : Game) (hfrag : g.GetFragLimit = 0)
    (p : Player) (hp : p ∈ g.Players) (hig : p.IsIgnored = false)
    (q : ℚ) (hq : p.Score = .fin q) :
    ∃ p' ∈ (g.Save).Players, p'.Name = p.Name ∧
      p'.Score = (if p.RoundKills = 0 then GoFloat.nan else GoFloat.ninf) ∧
      p'.Score ≠ p.Score := by
  obtain ⟨m, hm⟩ := mem_save_of_mem hp
  obtain ⟨-, -, -, -, -, -, -, -, -, -, s11, s12, -⟩ :=
    SaveRound_fields hig g.GetFragLimit
  have hk : p.RoundKills ≤ 0 := by
    have := (GetFragLimit_spec g).2.1 p hp
    rw [hfrag] at this
    exact this
  have hscore : ((p.SaveRound g.GetFragLimit).SetRank m).Score =
      (if p.RoundKills = 0 then GoFloat.nan else GoFloat.ninf) := by
    rw [SetRank_Score, s11, hfrag, goDivInt_zero_den, hq]
    by_cases h0 : p.RoundKills = 0
    · rw [if_pos h0, if_pos h0]
      rfl
    · rw [if_neg h0, if_neg h0, if_neg (by omega)]
      rfl
  refine ⟨(p.SaveRound g.GetFragLimit).SetRank m, hm, ?_, hscore, ?_⟩
  · rw [SetRank_Name, s12]
  · rw [hscore, hq]
    by_cases h0 : p.RoundKills = 0
    · rw [if_pos h0]
      exact fun h => GoFloat.noConfusion h
    · rw [if_neg h0]
      exact fun h => GoFloat.noConfusion h

/-- Witness for the amended C6 at the concrete one-player ledger. -/
theorem C6_witness :
    ∃ p' ∈ (Game.Save gNeg).Players,
      p'.Name = ({ Name := "V".toList, RoundKills := -1 } : Player).Name ∧
      p'.Score =
        (if ({ Name := "V".toList, RoundKills := -1 } : Player).RoundKills = 0
          then GoFloat.nan else GoFloat.ninf) ∧
      p'.Score ≠ ({ Name := "V".toList, RoundKills := -1 } : Player).Score :=
  C6_zero_frag_amended gNeg (by decide) _ (by decide) (by decide) 0 (by decide)

theorem IncrementKills_ignored {p : Player} (h : p.IsIgnored = true) :
    p.IncrementKills = p := by
  unfold Player.IncrementKills
  rw [if_pos h]

theorem SubtractKills_ignored {p : Player} (h : p.IsIgnored = true) :
    p.SubtractKills = p := by
  unfold Player.SubtractKills
  rw [if_pos h]

theorem IncrementDeaths_ignored {p : Player} (h : p.IsIgnored = true) :
    p.IncrementDeaths = p := by
  unfold Player.IncrementDeaths
  rw [if_pos h]

theorem IncrementSuicideDeaths_ignored {p : Player} (h : p.IsIgnored = true) :
    p.IncrementSuicideDeaths = p := by
  unfold Player.IncrementSuicideDeaths
  rw [if_pos h]

theorem IncrementRocketKills_ignored {p : Player} (h : p.IsIgnored = true) :
    p.IncrementRocketKills = p := by
  unfold Player.IncrementRocketKills
  rw [if_pos h]

theorem IncrementRailgunKills_ignored {p : Player} (h : p.IsIgnored = true) :
    p.IncrementRailgunKills = p := by
  unfold Player.IncrementRailgunKills
  rw [if_pos h]

theorem IncrementGauntletKills_ignored {p : Player} (h : p.IsIgnored = true) :
    p.IncrementGauntletKills = p := by
  unfold Player.IncrementGauntletKills
  rw [if_pos h]

theorem SetRank_ignored {p : Player} (h : p.IsIgnored = true) (r : ℤ) :
    p.SetRank r = p := by
  unfold Player.SetRank
  rw [if_pos h]

theorem victimPenalty_eq {v : Player} (h : v.IsIgnored = false) :
    v.SubtractKills.IncrementDeaths.IncrementSuicideDeaths =
      { v with RoundKills := v.RoundKills - 1, RoundDeaths := v.RoundDeaths + 1,
               RoundSuicideDeaths := v.RoundSuicideDeaths + 1,
               RoundCurrentKillingStreak := 0 } := by
  simp [Player.SubtractKills, Player.IncrementDeaths,
    Player.IncrementSuicideDeaths, h]

theorem victimPenalty_Name (v : Player) :
    (v.SubtractKills.IncrementDeaths.IncrementSuicideDeaths).Name = v.Name := by
  by_cases h : v.IsIgnored = true
  · rw [SubtractKills_ignored h, IncrementDeaths_ignored h,
      IncrementSuicideDeaths_ignored h]
  · rw [victimPenalty_eq (Bool.not_eq_true _ ▸ h)]

theorem find?_append_some {l l2 : List Player} {pr : Player → Bool} {x : Player}
    (h : l.find? pr = some x) : (l ++ l2).find? pr = some x := by
  rw [List.find?_append, h]
  rfl

theorem GetOrCreate_fst_Name (g : Game) (n : GoStr) :
    (g.GetOrCreatePlayer n).fst.Name = n := by
  unfold Game.GetOrCreatePlayer
  cases hf : g.Players.find? (fun p => p.Name = n) with
  | some p => simpa using List.find?_some hf
  | none =>
    dsimp only
    unfold Player.SetIsIgnored Player.SetDrinkingCider
    split <;> split <;> rfl

theorem GetOrCreate_resolves {g : Game} {n : GoStr} {pv : Player}
    (h : g.Players.find? (fun p => p.Name = n) = some pv) :
    g.GetOrCreatePlayer n = (pv, g) := by
  unfold Game.GetOrCreatePlayer
  rw [h]

theorem GetOrCreate_find?_preserved {g : Game} {n m : GoStr} {x : Player}
    (hx : g.Players.find? (fun p => p.Name = m) = some x) :
    (g.GetOrCreatePlayer n).snd.Players.find? (fun p => p.Name = m) = some x := by
  unfold Game.GetOrCreatePlayer
  cases hf : g.Players.find? (fun p => p.Name = n) with
  | some p => exact hx
  | none => exact find?_append_some hx

theorem find?_updateNamed_self {n : GoStr} {f : Player → Player}
    {l : List Player} {x : Player}
    (hfname : ∀ y, (f y).Name = y.Name)
    (hx : l.find? (fun p => p.Name = n) = some x) :
    (updateNamed n f l).find? (fun p => p.Name = n) = some (f x) := by
  induction l with
  | nil => simp at hx
  | cons p ps ih =>
    by_cases hpn : p.Name = n
    · rw [List.find?_cons_of_pos _ (by simpa using hpn)] at hx
      obtain rfl : p = x := by simpa using hx
      unfold updateNamed
      rw [if_pos hpn]
      rw [List.find?_cons_of_pos _ (by simp [hfname, hpn])]
    · rw [List.find?_cons_of_neg _ (by simpa using hpn)] at hx
      unfold updateNamed
      rw [if_neg hpn]
      rw [List.find?_cons_of_neg _ (by simpa using hpn)]
      exact ih hx

theorem find?_updateNamed_other {n m : GoStr} {f : Player → Player}
    {l : List Player} (hnm : m ≠ n)
    (hfname : ∀ y, (f y).Name = y.Name) :
    (updateNamed n f l).find? (fun p => p.Name = m) =
      l.find? (fun p => p.Name = m) := by
  induction l with
  | nil => rfl
  | cons p ps ih =>
    by_cases hpn : p.Name = n
    · unfold updateNamed
      rw [if_pos hpn]
      have hfp : ¬ ((f p).Name = m) := by
        rw [hfname, hpn]
        exact fun hc => hnm hc.symm
      have hpm : ¬ (p.Name = m) := by
        rw [hpn]
        exact fun hc => hnm hc.symm
      rw [List.find?_cons_of_neg _ (by simpa using hfp),
        List.find?_cons_of_neg _ (by simpa using hpm)]
    · unfold updateNamed
      rw [if_neg hpn]
      by_cases hpm : p.Name = m
      · rw [List.find?_cons_of_pos _ (by simpa using hpm),
          List.find?_cons_of_pos _ (by simpa using hpm)]
      · rw [List.find?_cons_of_neg _ (by simpa using hpm),
          List.find?_cons_of_neg _ (by simpa using hpm)]
        exact ih

/-- C2, counterexample: a world kill whose victim is flagged ignored
changes none of the victim's counters — round-kills stay 0 instead of
dropping to −1 — so the claim fails for ignored victims. -/
theorem C2_counterexample :
    (((gIgn.RecordKill "<world>".toList "I".toList "MOD_FALLING".toList).Players.find?
      (fun p => p.Name = "I".toList)).map
      (fun p => (p.RoundKills, p.RoundDeaths, p.RoundSuicideDeaths,
        p.RoundCurrentKillingStreak))) = some (0, 0, 0, 0) ∧
    ((gIgn.Players.find? (fun p => p.Name = "I".toList)).map
      (fun p => (p.RoundKills, p.RoundDeaths, p.RoundSuicideDeaths))) =
      some (0, 0, 0) := by decide

/-- C2, amended: outside warmup, a kill event whose attacker is the
sentinel `<world>` or equals the victim decrements the victim's
round-kills, increments round-deaths and round-suicide-deaths, and
resets the victim's current streak — provided the victim is not flagged
ignored (for an ignored victim all three ledger operations are no-ops).
Every other already-present player's entry is unchanged, so there is no
attacker-side credit. -/
theorem C2_world_suicide_amended (g : Game) (aName vName weapon : GoStr)
    (pv : Player) (hw : g.IsWarmup = false)
    (hcase : aName = "<world>".toList ∨ aName = vName)
    (hv : g.Players.find? (fun p => p.Name = vName) = some pv)
    (hig : pv.IsIgnored = false) :
    (g.RecordKill aName vName weapon).Players.find?
        (fun p => p.Name = vName) =
      some { pv with RoundKills := pv.RoundKills - 1,
                     RoundDeaths := pv.RoundDeaths + 1,
                     RoundSuicideDeaths := pv.RoundSuicideDeaths + 1,
                     RoundCurrentKillingStreak := 0 } ∧
    ∀ n, n ≠ vName → ∀ x, g.Players.find? (fun p => p.Name = n) = some x →
      (g.RecordKill aName vName weapon).Players.find?
        (fun p => p.Name = n) = some x := by
  have hpvName : pv.Name = vName := by simpa using List.find?_some hv
  unfold Game.RecordKill
  rw [if_neg (by rw [hw]; exact Bool.false_ne_true)]
  set ga := g.GetOrCreatePlayer aName with hga
  have haName : ga.fst.Name = aName := by
    rw [hga]
    exact GetOrCreate_fst_Name g aName
  have hv1 : ga.snd.Players.find? (fun p => p.Name = vName) = some pv := by
    rw [hga]
    exact GetOrCreate_find?_preserved hv
  obtain ⟨attacker, g1⟩ := ga
  have hres : g1.GetOrCreatePlayer vName = (pv, g1) := GetOrCreate_resolves hv1
  dsimp only
  rw [hres]
  dsimp only
  rw [if_pos (by
    rcases hcase with hc | hc
    · exact Or.inl (by rw [haName, hc])
    · exact Or.inr (by rw [haName, hc, hpvName]))]
  dsimp only
  constructor
  · rw [hpvName]
    have := find?_updateNamed_self victimPenalty_Name hv1
    rw [this, victimPenalty_eq hig, hpvName]
  · intro n hn x hx
    rw [hpvName]
    rw [find?_updateNamed_other hn victimPenalty_Name]
    have hpres := @GetOrCreate_find?_preserved g aName n x hx
    have hsnd : (g.GetOrCreatePlayer aName).snd = g1 := by
      rw [← hga]
    rw [hsnd] at hpres
    exact hpres

/-- Witness for the amended C2: a world kill on the non-ignored player
B of the concrete ledger. -/
theorem C2_witness :
    (gIgn.RecordKill "<world>".toList "B".toList "MOD_FALLING".toList).Players.find?
        (fun p => p.Name = "B".toList) =
      some { ({ Name := "B".toList } : Player) with
               RoundKills := ({ Name := "B".toList } : Player).RoundKills - 1,
               RoundDeaths := ({ Name := "B".toList } : Player).RoundDeaths + 1,
               RoundSuicideDeaths :=
                 ({ Name := "B".toList } : Player).RoundSuicideDeaths + 1,
               RoundCurrentKillingStreak := 0 } ∧
    ∀ n, n ≠ "B".toList → ∀ x,
      gIgn.Players.find? (fun p => p.Name = n) = some x →
      (gIgn.RecordKill "<world>".toList "B".toList "MOD_FALLING".toList).Players.find?
        (fun p => p.Name = n) = some x :=
  C2_world_suicide_amended gIgn "<world>".toList "B".toList "MOD_FALLING".toList
    { Name := "B".toList } (by decide) (Or.inl rfl) (by decide) (by decide)

/-- C9, counterexample: an ignored attacker's counters do NOT
accumulate — after a railgun kill by the ignored player I, I's
round-kills are still 0 (the claim would have them at 1), and after a
world kill on I all of I's death counters are still 0; the events are
nevertheless consumed (the non-ignored victim B registers a death). -/
theorem C9_counterexample :
    (((gIgn.RecordKill "I".toList "B".toList "MOD_RAILGUN".toList).Players.find?
      (fun p => p.Name = "I".toList)).map
      (fun p => (p.RoundKills, p.RoundRailgunKills))) = some (0, 0) ∧
    (((gIgn.RecordKill "<world>".toList "I".toList "MOD_FALLING".toList).Players.find?
      (fun p => p.Name = "I".toList)).map
      (fun p => (p.RoundKills, p.RoundDeaths, p.RoundSuicideDeaths))) =
      some (0, 0, 0) ∧
    (((gIgn.RecordKill "I".toList "B".toList "MOD_RAILGUN".toList).Players.find?
      (fun p => p.Name = "B".toList)).map Player.RoundDeaths) = some 1 := by decide

/-- C9, amended: an ignored player is excluded from the UI-sorted
output and from rank assignment, and — contrary to the claim's "still
accumulates internally" — every counter-mutating ledger operation is a
no-op on it. -/
theorem C9_ignored_amended :
    (∀ p : Player, p.IsIgnored = true →
      p.IncrementKills = p ∧ p.SubtractKills = p ∧ p.IncrementDeaths = p ∧
      p.IncrementSuicideDeaths = p ∧ p.IncrementRocketKills = p ∧
      p.IncrementRailgunKills = p ∧ p.IncrementGauntletKills = p ∧
      (∀ r : ℤ, p.SetRank r = p) ∧ (∀ f : ℤ, p.SaveRound f = p)) ∧
    (∀ g : Game, ∀ p ∈ g.GetSortedPlayers, p.IsIgnored = false) := by
  constructor
  · intro p h
    exact ⟨IncrementKills_ignored h, SubtractKills_ignored h,
      IncrementDeaths_ignored h, IncrementSuicideDeaths_ignored h,
      IncrementRocketKills_ignored h, IncrementRailgunKills_ignored h,
      IncrementGauntletKills_ignored h, fun r => SetRank_ignored h r,
      fun f => SaveRound_isFinite_of_ignored h f⟩
  · intro g p hp
    have hp2 := (mem_sortLe _).1 hp
    have := (List.mem_filter.1 hp2).2
    simpa using this

/-- Witness for the amended C9 at a concrete ignored player and the
concrete ledger. -/
theorem C9_witness :
    (({ Name := "I".toList, IsIgnored := true } : Player).IncrementKills =
        { Name := "I".toList, IsIgnored := true } ∧
      ({ Name := "I".toList, IsIgnored := true } : Player).SubtractKills =
        { Name := "I".toList, IsIgnored := true } ∧
      ({ Name := "I".toList, IsIgnored := true } : Player).IncrementDeaths =
        { Name := "I".toList, IsIgnored := true } ∧
      ({ Name := "I".toList, IsIgnored := true } : Player).IncrementSuicideDeaths =
        { Name := "I".toList, IsIgnored := true } ∧
      ({ Name := "I".toList, IsIgnored := true } : Player).IncrementRocketKills =
        { Name := "I".toList, IsIgnored := true } ∧
      ({ Name := "I".toList, IsIgnored := true } : Player).IncrementRailgunKills =
        { Name := "I".toList, IsIgnored := true } ∧
      ({ Name := "I".toList, IsIgnored := true } : Player).IncrementGauntletKills =
        { Name := "I".toList, IsIgnored := true } ∧
      (∀ r : ℤ, ({ Name := "I".toList, IsIgnored := true } : Player).SetRank r =
        { Name := "I".toList, IsIgnored := true }) ∧
      (∀ f : ℤ, ({ Name := "I".toList, IsIgnored := true } : Player).SaveRound f =
        { Name := "I".toList, IsIgnored := true })) ∧
    (∀ p ∈ gIgn.GetSortedPlayers, p.IsIgnored = false) :=
  ⟨C9_ignored_amended.1 { Name := "I".toList, IsIgnored := true } (by decide),
   C9_ignored_amended.2 gIgn⟩

theorem toGoInt_intCast (z : ℤ) : GoFloat.toGoInt (.fin ((z : ℤ) : ℚ)) = z := by
  show (if 0 ≤ ((z : ℤ) : ℚ) then Rat.floor ((z : ℤ) : ℚ)
    else Rat.ceil ((z : ℤ) : ℚ)) = z
  by_cases h : 0 ≤ ((z : ℤ) : ℚ)
  · rw [if_pos h, qfloor_eq]
    exact Int.floor_intCast z
  · rw [if_neg h]
    unfold Rat.ceil
    rw [if_pos (Rat.den_intCast z)]
    exact Rat.num_intCast z

theorem beers_formula (q : ℚ) :
    ((GoFloat.fin q).mathFloor).toGoInt = ⌊q⌋ := by
  show GoFloat.toGoInt (.fin ((Rat.floor q : ℤ) : ℚ)) = ⌊q⌋
  rw [qfloor_eq]
  exact toGoInt_intCast _

theorem mathRound_toGoInt (x : ℚ) :
    ((GoFloat.fin x).mathRound).toGoInt = roundAwayFromZero x := by
  unfold GoFloat.mathRound roundAwayFromZero
  rw [toGoInt_intCast]
  by_cases h : 0 ≤ x
  · rw [if_pos h, if_pos h, qadd_eq, qhalf_eq, qfloor_eq]
  · rw [if_neg h, if_neg h, qadd_eq, qneg_eq, qhalf_eq, qfloor_eq]

theorem beer_mode_law (q : ℚ) :
    formatBeersAndSips (.fin q) =
      renderBeersAndSips ⌊q⌋ (roundAwayFromZero ((q - ⌊q⌋) * 14)) := by
  show renderBeersAndSips ((GoFloat.fin q).mathFloor).toGoInt
      ((((GoFloat.fin q).sub
        (.fin ((((GoFloat.fin q).mathFloor).toGoInt : ℤ) : ℚ))).mulC
          14).mathRound).toGoInt = _
  rw [beers_formula]
  have hsub : (GoFloat.fin q).sub (.fin ((⌊q⌋ : ℤ) : ℚ)) =
      .fin (q - (⌊q⌋ : ℤ)) := by
    show GoFloat.fin (qsub q ((⌊q⌋ : ℤ) : ℚ)) = _
    rw [qsub_eq]
  rw [hsub]
  have hmul : (GoFloat.fin (q - (⌊q⌋ : ℤ))).mulC 14 =
      .fin ((q - (⌊q⌋ : ℤ)) * 14) := by
    show GoFloat.fin (qmul (q - ((⌊q⌋ : ℤ) : ℚ)) 14) = _
    rw [qmul_eq]
  rw [hmul, mathRound_toGoInt]

/-- C8.  The unit formatter satisfies the five concrete specification
equations — `format(0,false)=""`, `format(1,false)="1 beer"`,
`format(1.5,false)="1 beer & 7 sips"`, `format(0.9999,false)="1 beer"`
(sip rollover), `format(5,true)="3.30 ciders"` — and, in beer mode,
computes beers as `floor(score)` and sips as
`round((score − beers)·14)` rounded half away from zero, with 14 sips
rolled into one extra beer (the rollover and rendering live in
`renderBeersAndSips`, embedded from the source). -/
theorem C8_formatter :
    calculateScore14 (.fin 0) false = "".toList ∧
    calculateScore14 (.fin 1) false = "1 beer".toList ∧
    calculateScore14 (.fin (mkRat 3 2)) false = "1 beer & 7 sips".toList ∧
    calculateScore14 (.fin (mkRat 9999 10000)) false = "1 beer".toList ∧
    calculateScore14 (.fin 5) true = "3.30 ciders".toList ∧
    ∀ q : ℚ, formatBeersAndSips (.fin q) =
      renderBeersAndSips ⌊q⌋ (roundAwayFromZero ((q - ⌊q⌋) * 14)) :=
  ⟨by decide, by decide, by decide, by decide, by decide, beer_mode_law⟩

theorem gatherTokens_isSome {toks : List GoStr} {lo : ℕ} (count : ℕ)
    (h : lo + count ≤ toks.length) :
    (gatherTokens toks lo count).isSome = true := by
  induction count generalizing lo with
  | zero => rfl
  | succ n ih =>
    unfold gatherTokens
    rw [List.get?_eq_get (by omega)]
    have := @ih (lo + 1) (by omega)
    obtain ⟨r, hr⟩ := Option.isSome_iff_exists.1 this
    rw [hr]
    rfl

theorem joinTokens_isSome {toks : List GoStr} {lo hi : ℕ}
    (h : hi ≤ toks.length) : (joinTokens toks lo hi).isSome = true := by
  unfold joinTokens
  by_cases hc : hi - lo = 0
  · rw [hc]
    rfl
  · have := @gatherTokens_isSome toks lo (hi - lo) (by omega)
    obtain ⟨r, hr⟩ := Option.isSome_iff_exists.1 this
    rw [hr]
    rfl

theorem findIdx?_lt_length_aux {α : Type} {p : α → Bool} {l : List α} {i k : ℕ}
    (h : List.findIdx? p l k = some i) : i < k + l.length := by
  induction l generalizing k with
  | nil => simp [List.findIdx?] at h
  | cons x xs ih =>
    rw [List.findIdx?_cons] at h
    by_cases hp : p x
    · rw [if_pos hp] at h
      obtain rfl : k = i := by simpa using h
      simp
    · rw [if_neg hp] at h
      have := ih h
      simp only [List.length_cons]
      omega

theorem findIdx?_lt_length {α : Type} {p : α → Bool} {l : List α} {i : ℕ}
    (h : l.findIdx? p = some i) : i < l.length := by
  have := findIdx?_lt_length_aux h
  simpa using this

theorem parseKillEvent_isSome {toks : List GoStr} (h : 1 ≤ toks.length) :
    (parseKillEvent toks).isSome = true := by
  unfold parseKillEvent
  cases hf : toks.findIdx? (fun w => w = "killed".toList) with
  | none => rfl
  | some ki =>
    have hki : ki < toks.length := findIdx?_lt_length hf
    rw [List.get?_eq_get (show toks.length - 1 < toks.length by omega)]
    obtain ⟨a, ha⟩ := Option.isSome_iff_exists.1
      (@joinTokens_isSome toks 6 ki (le_of_lt hki))
    obtain ⟨v, hv⟩ := Option.isSome_iff_exists.1
      (@joinTokens_isSome toks (ki + 1) (toks.length - 2)
        (Nat.sub_le _ _))
    by_cases h6 : ki > 6 <;> by_cases h2 : ki + 1 < toks.length - 2 <;>
      simp [h6, h2, ha, hv]

/-- C10.  For every input line, game state and score flag, `ParseLine`
returns a value — `none` in the embedding stands for a panicking
out-of-range slice access, so this is the no-out-of-bounds/termination
property — and a line with fewer than 3 space-separated tokens (after
the backspace-artifact strip) is rejected with the too-few-tokens error
and leaves the game state and flag unchanged. -/
theorem C10_parseLine_total (md5hex : GoStr → GoStr) (line : GoStr)
    (g : Game) (rs : Bool) :
    (ParseLine md5hex line g rs).isSome = true ∧
    ((splitOnSpace (replaceFirstEmpty "]\x08 \x08".toList line)).length < 3 →
      ParseLine md5hex line g rs =
        some (.errTooFewTokens, g, rs)) := by
  constructor
  · unfold ParseLine
    by_cases hlen :
      (splitOnSpace (replaceFirstEmpty "]\x08 \x08".toList line)).length < 3
    · rw [if_pos hlen]
      rfl
    · rw [if_neg hlen]
      obtain ⟨t0, h0⟩ := Option.isSome_iff_exists.1
        (show ((splitOnSpace (replaceFirstEmpty "]\x08 \x08".toList line)).get?
            0).isSome = true by
          rw [List.get?_eq_get (by omega)]
          rfl)
      obtain ⟨t1, h1t⟩ := Option.isSome_iff_exists.1
        (show ((splitOnSpace (replaceFirstEmpty "]\x08 \x08".toList line)).get?
            1).isSome = true by
          rw [List.get?_eq_get (by omega)]
          rfl)
      obtain ⟨t2, h2t⟩ := Option.isSome_iff_exists.1
        (show ((splitOnSpace (replaceFirstEmpty "]\x08 \x08".toList line)).get?
            2).isSome = true by
          rw [List.get?_eq_get (by omega)]
          rfl)
      simp only [List.get?_eq_getElem?] at h0 h1t h2t
      simp at h0 h1t h2t
      by_cases hk : t2 = "Kill:".toList
      · obtain ⟨⟨a, v, w⟩, hpk⟩ := Option.isSome_iff_exists.1
          (@parseKillEvent_isSome
            (splitOnSpace (replaceFirstEmpty "]\x08 \x08".toList line))
            (by omega))
        simp at hpk
        cases hval : validateActionKill a v with
        | some e => simp [h0, h1t, h2t, hk, hpk, hval]
        | none => simp [h0, h1t, h2t, hk, hpk, hval]
      · simp at hk
        by_cases hs : t2 = "Server:".toList
        · by_cases h4 : 4 ≤
            (splitOnSpace (replaceFirstEmpty "]\x08 \x08".toList line)).length
          · obtain ⟨t3, h3t⟩ := Option.isSome_iff_exists.1
              (show ((splitOnSpace
                  (replaceFirstEmpty "]\x08 \x08".toList line)).get?
                  3).isSome = true by
                rw [List.get?_eq_get (by omega)]
                rfl)
            simp only [List.get?_eq_getElem?] at h3t
            simp at h3t h4
            simp [h0, h1t, h2t, h3t, hk, hs, h4]
          · simp at h4
            simp [h0, h1t, h2t, hk, hs]
            rw [if_neg (Nat.not_le.mpr h4)]
            simp
        · simp at hs
          simp [h0, h1t, h2t, hk, hs]
  · intro h
    unfold ParseLine
    rw [if_pos h]

/-- Witness for C10: on the concrete two-token line "x y" with a fresh game,
`ParseLine` returns a value (no panic), and since the line has fewer than 3
tokens the result is the too-few-tokens error with the state unchanged. -/
theorem C10_witness :
    (ParseLine hashId "x y".toList (Game.NewGame {}) false).isSome = true ∧
    ParseLine hashId "x y".toList (Game.NewGame {}) false =
      some (.errTooFewTokens, Game.NewGame {}, false) :=
  ⟨(C10_parseLine_total hashId "x y".toList (Game.NewGame {}) false).1,
   (C10_parseLine_total hashId "x y".toList (Game.NewGame {}) false).2
     (by decide)⟩
